import Mathlib

/-!
Verification development for the goxlsw language server core
(`internal/server/compile.go`, `internal/server/text_synchronization.go`,
`internal/server/util.go`, and the AST path utility).

The Go code is shallowly embedded: pure functions become Lean functions,
the mutating methods on `compileResult` and the server become explicit
state-passing functions, Go maps become association lists (key order is
irrelevant to the properties proved), and Go slices become lists.
External collaborators (the gop parser/type-checker, the vfs package,
the spx resource loader) are modelled by data carried on the inputs, as
documented at each definition.
-/

namespace GoxLSW

/-! ## Basic LSP data model (`protocol` types as used by `compile.go`) -/

/-- LSP position: 0-based line and UTF-16 character, as in `protocol.Position`. -/
structure Position where
  line : Nat
  character : Nat
  deriving DecidableEq, Repr

/-- LSP range, `protocol.Range{Start, End}` (`stop` stands for the `End` field). -/
structure Range where
  start : Position
  stop : Position
  deriving DecidableEq, Repr

/-- The zero value of `Range` (a `Diagnostic` built without a `Range` field
in Go keeps the zero value). -/
def zeroRange : Range := ⟨⟨0, 0⟩, ⟨0, 0⟩⟩

/-- LSP severity `Error` (numeric value as in the protocol package). -/
def SeverityError : Nat := 1

/-- LSP severity `Warning`. -/
def SeverityWarning : Nat := 2

/-- A diagnostic as constructed throughout `compile.go`: only the
`Severity`, `Range` and `Message` fields are ever set, which are exactly
the fields covered by the dedup fingerprint
`fmt.Sprintf("%d\n%v\n%s", ...)` in `addDiagnostics`, so the fingerprint
of a diagnostic is modelled by the diagnostic value itself. -/
structure Diagnostic where
  severity : Nat
  range : Range
  message : String
  deriving DecidableEq, Repr

/-- Document URIs are strings (`protocol.DocumentURI`). -/
abbrev DocumentURI := String

/-- `Server.workspaceRootURI` is initialised to `"file:///"` in `New`. -/
def workspaceRootURI : String := "file:///"

/-- `Server.toDocumentURI`: prepend the workspace root URI to a relative path. -/
def toDocumentURI (path : String) : DocumentURI :=
  workspaceRootURI ++ path

/-! ## Association-list helpers for the Go maps -/

/-- Lookup in an association list, with a default (a missing key of a Go
map yields the zero value). -/
def lookupOr {α : Type} (m : List (String × α)) (k : String) (dflt : α) : α :=
  match m.find? (fun p => p.1 = k) with
  | some p => p.2
  | none => dflt

/-- Set a key in an association list: replace the first binding of `k`,
or append a new binding if `k` is absent (Go map assignment). -/
def setKey {α : Type} (m : List (String × α)) (k : String) (v : α) : List (String × α) :=
  match m with
  | [] => [(k, v)]
  | (k', v') :: rest => if k' = k then (k, v) :: rest else (k', v') :: setKey rest k v

/-- The keys of an association list. -/
def keysOf {α : Type} (m : List (String × α)) : List String :=
  m.map (·.1)

/-! ## The spx expression / type model

`compile.go` inspects typed gop AST expressions.  We embed exactly the
observations the inspected code makes of an expression: its syntactic
shape (string literal, identifier, call with identifier / selector
function, other), the file and range of the node, the type recorded in
`typeInfo.Types`, and the constant string value of `tv.Value` (used by
`StringLitOrConstValue`).  Identifiers additionally carry the object
resolved by `typeInfo.ObjectOf` (identity and name), whether they are
the defining identifier of that object (`DefIdentFor(...) == ident`),
and the right-hand side found by the assignment walk of
`inspectSpxResourceRefForTypeAtExpr` (the result of
`WalkPathEnclosingInterval` over the enclosing AST, attached as data). -/

/-- Types relevant to resource-reference inference, standing for the
process-wide spx named types compared by identity in `compile.go`
(`GetSpxSoundNameType()` etc.).  `otherNamed` covers any other named
type, carrying its name (`varType.Obj().Name()`) and whether
`vfs.HasSpriteType` holds for it (a project sprite class type). -/
inductive SpxType where
  | backdropName
  | spriteName
  | spriteCostumeName
  | spriteAnimationName
  | soundName
  | widgetName
  | sound
  | sprite
  | spriteImpl
  | otherNamed (typeName : String) (hasSpriteTy : Bool)
  deriving DecidableEq, Repr

/-- `vfs.HasSpriteType` on the model types: true exactly for the
project's own sprite class types (modelled by the flag on `otherNamed`);
the spx library types themselves are not project sprite classes. -/
def hasSpriteType : SpxType → Bool
  | .otherNamed _ b => b
  | _ => false

/-- The name of the type's `Obj()` (`varType.Obj().Name()`); only used
by the auto-binding default case, where the type is `otherNamed`. -/
def SpxType.typeName : SpxType → String
  | .backdropName => "BackdropName"
  | .spriteName => "SpriteName"
  | .spriteCostumeName => "SpriteCostumeName"
  | .spriteAnimationName => "SpriteAnimationName"
  | .soundName => "SoundName"
  | .widgetName => "WidgetName"
  | .sound => "Sound"
  | .sprite => "Sprite"
  | .spriteImpl => "SpriteImpl"
  | .otherNamed n _ => n

/-- Node-level data shared by all expression shapes. -/
structure ExprInfo where
  /-- File of the node (`goputil.NodeFilename`). -/
  file : String
  /-- `RangeForNode` for the node. -/
  range : Range
  /-- `typeInfo.Types[expr].Type` (none when the expression has no entry). -/
  tvType : Option SpxType
  /-- The string value of `tv.Value` when it is a `constant.String`. -/
  constStr : Option String
  deriving DecidableEq, Repr

/-- Shallow embedding of the gop expressions inspected by `compile.go`. -/
inductive ExprM where
  /-- `*gopast.BasicLit` of kind STRING whose value unquotes to `v`. -/
  | lit (info : ExprInfo) (v : String)
  /-- Any other `*gopast.BasicLit` (non-string kind or bad quoting). -/
  | litOther (info : ExprInfo)
  /-- `*gopast.Ident` with name, resolved object (identity and name, when
  `ObjectOf` is non-nil) and whether it is the object's defining
  identifier; the enclosing-path assignment walk finds no RHS for it. -/
  | identE (info : ExprInfo) (name : String) (obj : Option (Nat × String))
      (isDef : Bool)
  /-- An `*gopast.Ident` (same data as `identE`) that occurs as the
  left-hand side of an assignment whose matching right-hand side is
  `rhs`, as found by the `WalkPathEnclosingInterval` walk in
  `inspectSpxResourceRefForTypeAtExpr`. -/
  | identAssigned (info : ExprInfo) (name : String) (obj : Option (Nat × String))
      (isDef : Bool) (rhs : ExprM)
  /-- `*gopast.CallExpr` whose `Fun` is an `*gopast.Ident`. -/
  | callIdentFun (info : ExprInfo)
  /-- `*gopast.CallExpr` whose `Fun` is a `*gopast.SelectorExpr` with receiver `x`. -/
  | callSelector (info : ExprInfo) (x : ExprM)
  /-- Any other `*gopast.CallExpr`. -/
  | callOther (info : ExprInfo)
  /-- Any other expression. -/
  | otherE (info : ExprInfo)
  deriving DecidableEq, Repr

/-- The `ExprInfo` of an expression. -/
def ExprM.info : ExprM → ExprInfo
  | .lit i _ => i
  | .litOther i => i
  | .identE i _ _ _ => i
  | .identAssigned i _ _ _ _ => i
  | .callIdentFun i => i
  | .callSelector i _ => i
  | .callOther i => i
  | .otherE i => i

/-- The `*gopast.Ident` type assertion: the identifier's data when the
expression is an identifier (`ident, ok := expr.(*gopast.Ident)`). -/
def ExprM.asIdent : ExprM → Option (ExprInfo × String × Option (Nat × String) × Bool)
  | .identE i n o d => some (i, n, o, d)
  | .identAssigned i n o d _ => some (i, n, o, d)
  | _ => none

/-- `getStringLitOrConstValue` (`util.go`): a string literal yields its
unquoted value; an identifier yields `tv.Value` when that is a string
constant; anything else fails.  (`goputil.StringLitOrConstValue`, used by
`compile.go`, has the same behaviour.) -/
def stringLitOrConstValue : ExprM → Option String
  | .lit _ v => some v
  | .identE info _ _ _ => info.constStr
  | .identAssigned info _ _ _ _ => info.constStr
  | _ => none

/-! ## The spx resource set and resource references -/

/-- An spx sprite resource, with its child costume and animation names. -/
structure SpxSpriteResource where
  name : String
  costumes : List String
  animations : List String
  deriving DecidableEq, Repr

/-- The resource set loaded from the resource root directory
(`SpxResourceSet`), presented through its lookup functions. -/
structure SpxResourceSet where
  backdrops : List String
  sprites : List SpxSpriteResource
  sounds : List String
  widgets : List String
  deriving DecidableEq, Repr

/-- `SpxResourceSet.Backdrop(name)`: the backdrop resource or nil. -/
def SpxResourceSet.Backdrop (s : SpxResourceSet) (name : String) : Option String :=
  if name ∈ s.backdrops then some name else none

/-- `SpxResourceSet.Sound(name)`: the sound resource or nil. -/
def SpxResourceSet.Sound (s : SpxResourceSet) (name : String) : Option String :=
  if name ∈ s.sounds then some name else none

/-- `SpxResourceSet.Sprite(name)`: the sprite resource or nil. -/
def SpxResourceSet.Sprite (s : SpxResourceSet) (name : String) : Option SpxSpriteResource :=
  s.sprites.find? (fun sp => sp.name = name)

/-- `SpxResourceSet.Widget(name)`: the widget resource or nil. -/
def SpxResourceSet.Widget (s : SpxResourceSet) (name : String) : Option String :=
  if name ∈ s.widgets then some name else none

/-- `SpxSpriteResource.Costume(name)`. -/
def SpxSpriteResource.Costume (s : SpxSpriteResource) (name : String) : Option String :=
  if name ∈ s.costumes then some name else none

/-- `SpxSpriteResource.Animation(name)`. -/
def SpxSpriteResource.Animation (s : SpxSpriteResource) (name : String) : Option String :=
  if name ∈ s.animations then some name else none

/-- Resource identifiers (`SpxBackdropResourceID` etc.). -/
inductive SpxResourceId where
  | backdrop (backdropName : String)
  | sprite (spriteName : String)
  | spriteCostume (spriteName costumeName : String)
  | spriteAnimation (spriteName animationName : String)
  | sound (soundName : String)
  | widget (widgetName : String)
  deriving DecidableEq, Repr

/-- `SpxResourceRefKind`. -/
inductive SpxResourceRefKind where
  | stringLiteral
  | constantReference
  | autoBinding
  | autoBindingReference
  deriving DecidableEq, Repr

/-- `SpxResourceRef{ID, Kind, Node}`. -/
structure SpxResourceRef where
  id : SpxResourceId
  kind : SpxResourceRefKind
  node : ExprM
  deriving DecidableEq, Repr

/-! ## `compileResult` and its mutators -/

/-- The state of a `compileResult` as mutated by `compile.go`.  The Go
maps `diagnostics` and `seenDiagnostics` become association lists from
document URI; `seenSpxResourceRefs` and the auto-binding sets become
lists used as sets (object identity is a `Nat`). -/
structure CompileResult where
  mainSpxFile : String
  spxResourceSet : SpxResourceSet
  spxResourceRefs : List SpxResourceRef
  seenSpxResourceRefs : List SpxResourceRef
  spxSoundResourceAutoBindings : List Nat
  spxSpriteResourceAutoBindings : List Nat
  diagnostics : List (DocumentURI × List Diagnostic)
  seenDiagnostics : List (DocumentURI × List Diagnostic)
  hasErrorSeverityDiagnostic : Bool
  deriving DecidableEq, Repr

/-- `newCompileResult`: empty maps and sets, zero flags. -/
def newCompileResult : CompileResult :=
  { mainSpxFile := ""
    spxResourceSet := ⟨[], [], [], []⟩
    spxResourceRefs := []
    seenSpxResourceRefs := []
    spxSoundResourceAutoBindings := []
    spxSpriteResourceAutoBindings := []
    diagnostics := []
    seenDiagnostics := []
    hasErrorSeverityDiagnostic := false }

/-- Adding one diagnostic inside the loop of `addDiagnostics`: skip it if
its fingerprint is already in the per-URI seen set, otherwise record the
fingerprint, append the diagnostic, and raise the error flag when the
severity is `Error`. -/
def addDiagnostic1 (r : CompileResult) (uri : DocumentURI) (diag : Diagnostic) : CompileResult :=
  let seen := lookupOr r.seenDiagnostics uri []
  if diag ∈ seen then r
  else
    { r with
      seenDiagnostics := setKey r.seenDiagnostics uri (seen ++ [diag])
      diagnostics := setKey r.diagnostics uri (lookupOr r.diagnostics uri [] ++ [diag])
      hasErrorSeverityDiagnostic :=
        r.hasErrorSeverityDiagnostic || decide (diag.severity = SeverityError) }

/-- `compileResult.addDiagnostics`: the `slices.Grow` assignment always
materialises the document's entry in the diagnostics map (even when every
diagnostic is a duplicate or `diags` is empty), then each diagnostic is
appended unless its `(severity, range, message)` fingerprint was already
seen for this document URI. -/
def addDiagnostics (r : CompileResult) (uri : DocumentURI) (diags : List Diagnostic) : CompileResult :=
  let r := { r with diagnostics := setKey r.diagnostics uri (lookupOr r.diagnostics uri []) }
  diags.foldl (fun acc d => addDiagnostic1 acc uri d) r

/-- `compileResult.addSpxResourceRef`: append the reference unless an
equal `(ID, Kind, Node)` triple was already seen. -/
def addSpxResourceRef (r : CompileResult) (ref : SpxResourceRef) : CompileResult :=
  if ref ∈ r.seenSpxResourceRefs then r
  else
    { r with
      seenSpxResourceRefs := r.seenSpxResourceRefs ++ [ref]
      spxResourceRefs := r.spxResourceRefs ++ [ref] }

/-- The diagnostics stored for a document URI. -/
def diagsAt (r : CompileResult) (uri : DocumentURI) : List Diagnostic :=
  lookupOr r.diagnostics uri []

/-- Invariant relating the seen-fingerprint sets to the stored
diagnostics: a triple is in a document's seen set exactly when it is
stored for that document.  Both structures are only ever modified
together by `addDiagnostics`; the only other write to the diagnostics
map (`result.diagnostics[documentURI] = []Diagnostic{}` in `compileAt`)
happens before anything is added for that URI, so every reachable
`compileResult` satisfies this. -/
def seenInv (r : CompileResult) : Prop :=
  ∀ uri d, d ∈ lookupOr r.seenDiagnostics uri [] ↔ d ∈ lookupOr r.diagnostics uri []

/-- `compileResult` states reachable from `newCompileResult` by
`addDiagnostics` calls alone. -/
inductive ReachableByAddDiagnostics : CompileResult → Prop where
  | base : ReachableByAddDiagnostics newCompileResult
  | step (r : CompileResult) (uri : DocumentURI) (diags : List Diagnostic) :
      ReachableByAddDiagnostics r → ReachableByAddDiagnostics (addDiagnostics r uri diags)

/-! ## Resource-reference inspectors (`compile.go`) -/

/-- Models `fmt.Sprintf("%q", s)` (Go quoting) for the characters that
occur in resource names: backslash and double quote are escaped, every
other character is kept verbatim.  (Go additionally escapes control and
non-printable characters; no property proved here depends on their
encoding.) -/
def goQuote (s : String) : String :=
  "\"" ++ String.mk (s.data.foldr
    (fun c acc => if c = '\\' ∨ c = '"' then '\\' :: c :: acc else c :: acc) []) ++ "\""

/-- `Server.nodeDocumentURI`: document URI of the node's file. -/
def nodeDocumentURI (e : ExprM) : DocumentURI :=
  toDocumentURI e.info.file

/-- The effective type used by every inspector:
`typ := exprTV.Type; if declaredType != nil { typ = declaredType }`. -/
def effectiveType (declaredType : Option SpxType) (e : ExprM) : Option SpxType :=
  match declaredType with
  | some t => some t
  | none => e.info.tvType

/-- `goputil.DerefType` on the model types: the model has no pointer
types, so dereferencing is the identity. -/
def derefType (t : Option SpxType) : Option SpxType := t

/-- Go `path.Base`: the last element of a slash-separated path, after
stripping trailing slashes; `"."` for the empty path, `"/"` for a path
of only slashes. -/
def pathBase (p : String) : String :=
  if p.data = [] then "."
  else
    let l := p.data.reverse.dropWhile (fun c => c = '/')
    if l = [] then "/"
    else String.mk ((l.takeWhile (fun c => c ≠ '/')).reverse)

/-- Go `strings.TrimSuffix`. -/
def trimSuffix (s suffix : String) : String :=
  if suffix.data.isSuffixOf s.data then
    String.mk (s.data.take (s.data.length - suffix.data.length))
  else s

/-- `inspectSpxBackdropResourceRefAtExpr`: extract the backdrop name from
a string literal or constant, reject the empty name, record the
`SpxResourceRef`, then look the backdrop up, reporting a not-found error
on miss. -/
def inspectSpxBackdropResourceRefAtExpr (r : CompileResult) (expr : ExprM)
    (declaredType : Option SpxType) : CompileResult × Option String :=
  let exprDocumentURI := nodeDocumentURI expr
  let exprRange := expr.info.range
  if effectiveType declaredType expr ≠ some .backdropName then (r, none)
  else
    match stringLitOrConstValue expr with
    | none => (r, none)
    | some spxBackdropName =>
      if spxBackdropName = "" then
        (addDiagnostics r exprDocumentURI
          [⟨SeverityError, exprRange, "backdrop resource name cannot be empty"⟩], none)
      else
        let kind : SpxResourceRefKind :=
          if (ExprM.asIdent expr).isSome then .constantReference else .stringLiteral
        let r := addSpxResourceRef r ⟨.backdrop spxBackdropName, kind, expr⟩
        match r.spxResourceSet.Backdrop spxBackdropName with
        | none =>
            (addDiagnostics r exprDocumentURI
              [⟨SeverityError, exprRange,
                "backdrop resource " ++ goQuote spxBackdropName ++ " not found"⟩], none)
        | some res => (r, some res)

/-- `inspectSpxSoundResourceRefAtExpr`: the sound name comes from a
string literal / constant (`SpxSoundName` type) or from a sound
auto-binding identifier (`Sound` type); the reference is recorded before
the resource lookup, and a not-found error is emitted on miss. -/
def inspectSpxSoundResourceRefAtExpr (r : CompileResult) (expr : ExprM)
    (declaredType : Option SpxType) : CompileResult × Option String :=
  let exprDocumentURI := nodeDocumentURI expr
  let exprRange := expr.info.range
  let nameAndKind : Option (String × SpxResourceRefKind) :=
    match effectiveType declaredType expr with
    | some .soundName =>
        (stringLitOrConstValue expr).map (fun v =>
          (v, if (ExprM.asIdent expr).isSome then .constantReference else .stringLiteral))
    | some .sound =>
        match ExprM.asIdent expr with
        | some (_, _, some (objId, objName), isDef) =>
            if objId ∈ r.spxSoundResourceAutoBindings then
              some (objName, if isDef then .autoBinding else .autoBindingReference)
            else none
        | _ => none
    | _ => none
  match nameAndKind with
  | none => (r, none)
  | some (spxSoundName, kind) =>
    if spxSoundName = "" then
      (addDiagnostics r exprDocumentURI
        [⟨SeverityError, exprRange, "sound resource name cannot be empty"⟩], none)
    else
      let r := addSpxResourceRef r ⟨.sound spxSoundName, kind, expr⟩
      match r.spxResourceSet.Sound spxSoundName with
      | none =>
          (addDiagnostics r exprDocumentURI
            [⟨SeverityError, exprRange,
              "sound resource " ++ goQuote spxSoundName ++ " not found"⟩], none)
      | some res => (r, some res)

/-- `inspectSpxWidgetResourceRefAtExpr`. -/
def inspectSpxWidgetResourceRefAtExpr (r : CompileResult) (expr : ExprM)
    (declaredType : Option SpxType) : CompileResult × Option String :=
  let exprDocumentURI := nodeDocumentURI expr
  let exprRange := expr.info.range
  if effectiveType declaredType expr ≠ some .widgetName then (r, none)
  else
    match stringLitOrConstValue expr with
    | none => (r, none)
    | some spxWidgetName =>
      if spxWidgetName = "" then
        (addDiagnostics r exprDocumentURI
          [⟨SeverityError, exprRange, "widget resource name cannot be empty"⟩], none)
      else
        let kind : SpxResourceRefKind :=
          if (ExprM.asIdent expr).isSome then .constantReference else .stringLiteral
        let r := addSpxResourceRef r ⟨.widget spxWidgetName, kind, expr⟩
        match r.spxResourceSet.Widget spxWidgetName with
        | none =>
            (addDiagnostics r exprDocumentURI
              [⟨SeverityError, exprRange,
                "widget resource " ++ goQuote spxWidgetName ++ " not found"⟩], none)
        | some res => (r, some res)

/-- `inspectSpxSpriteCostumeResourceRefAtExpr` (relative to an already
resolved sprite resource). -/
def inspectSpxSpriteCostumeResourceRefAtExpr (r : CompileResult)
    (spxSpriteResource : SpxSpriteResource) (expr : ExprM)
    (declaredType : Option SpxType) : CompileResult × Option String :=
  let exprDocumentURI := nodeDocumentURI expr
  let exprRange := expr.info.range
  if effectiveType declaredType expr ≠ some .spriteCostumeName then (r, none)
  else
    match stringLitOrConstValue expr with
    | none => (r, none)
    | some spxSpriteCostumeName =>
      if spxSpriteCostumeName = "" then
        (addDiagnostics r exprDocumentURI
          [⟨SeverityError, exprRange, "sprite costume resource name cannot be empty"⟩], none)
      else
        let kind : SpxResourceRefKind :=
          if (ExprM.asIdent expr).isSome then .constantReference else .stringLiteral
        let r := addSpxResourceRef r
          ⟨.spriteCostume spxSpriteResource.name spxSpriteCostumeName, kind, expr⟩
        match spxSpriteResource.Costume spxSpriteCostumeName with
        | none =>
            (addDiagnostics r exprDocumentURI
              [⟨SeverityError, exprRange,
                "costume resource " ++ goQuote spxSpriteCostumeName ++
                  " not found in sprite " ++ goQuote spxSpriteResource.name⟩], none)
        | some res => (r, some res)

/-- `inspectSpxSpriteAnimationResourceRefAtExpr`. -/
def inspectSpxSpriteAnimationResourceRefAtExpr (r : CompileResult)
    (spxSpriteResource : SpxSpriteResource) (expr : ExprM)
    (declaredType : Option SpxType) : CompileResult × Option String :=
  let exprDocumentURI := nodeDocumentURI expr
  let exprRange := expr.info.range
  if effectiveType declaredType expr ≠ some .spriteAnimationName then (r, none)
  else
    match stringLitOrConstValue expr with
    | none => (r, none)
    | some spxSpriteAnimationName =>
      if spxSpriteAnimationName = "" then
        (addDiagnostics r exprDocumentURI
          [⟨SeverityError, exprRange, "sprite animation resource name cannot be empty"⟩], none)
      else
        let kind : SpxResourceRefKind :=
          if (ExprM.asIdent expr).isSome then .constantReference else .stringLiteral
        let r := addSpxResourceRef r
          ⟨.spriteAnimation spxSpriteResource.name spxSpriteAnimationName, kind, expr⟩
        match spxSpriteResource.Animation spxSpriteAnimationName with
        | none =>
            (addDiagnostics r exprDocumentURI
              [⟨SeverityError, exprRange,
                "animation resource " ++ goQuote spxSpriteAnimationName ++
                  " not found in sprite " ++ goQuote spxSpriteResource.name⟩], none)
        | some res => (r, some res)

/-- The outcome of the sprite-naming stage (the `switch` on the call
function plus the `if spxSpriteName == ""` block) of
`inspectSpxSpriteResourceRefAtExpr`: a silent nil return, the
empty-name error, or a name (with the reference recorded). -/
inductive SpriteNaming where
  | failed
  | emptyName
  | named (r : CompileResult) (name : String)

/-- The tail of `inspectSpxSpriteResourceRefAtExpr` after the naming
stage: a failed extraction returns nil silently, an empty extracted name
emits the empty-name error, and a name is looked up in the resource set
with a not-found error on miss. -/
def finishSpriteNaming (r : CompileResult) (uri : DocumentURI) (rng : Range) :
    SpriteNaming → CompileResult × Option SpxSpriteResource
  | .failed => (r, none)
  | .emptyName =>
      (addDiagnostics r uri
        [⟨SeverityError, rng, "sprite resource name cannot be empty"⟩], none)
  | .named r' spxSpriteName =>
      match r'.spxResourceSet.Sprite spxSpriteName with
      | none =>
          (addDiagnostics r' uri
            [⟨SeverityError, rng,
              "sprite resource " ++ goQuote spxSpriteName ++ " not found"⟩], none)
      | some res => (r', some res)

/-- `inspectSpxSpriteResourceRefAtExpr`: a call through an identifier
resolves the sprite from the file's basename (the dialect treats
`<name>.spx` as defining sprite `<name>`); a call through a selector
recurses into the receiver identifier; otherwise the name comes from a
string literal / constant (`SpxSpriteName` type) or a sprite
auto-binding identifier, the reference is recorded, and the sprite is
looked up with a not-found error on miss. -/
def inspectSpxSpriteResourceRefAtExpr (r : CompileResult) (expr : ExprM)
    (declaredType : Option SpxType) : CompileResult × Option SpxSpriteResource :=
  let exprDocumentURI := nodeDocumentURI expr
  let exprRange := expr.info.range
  let typ := effectiveType declaredType expr
  match expr with
  | .callSelector _ x =>
      if (ExprM.asIdent x).isSome then inspectSpxSpriteResourceRefAtExpr r x declaredType
      else (r, none)
  | .callOther _ => (r, none)
  | _ =>
    let name0 : String :=
      match expr with
      | .callIdentFun info => trimSuffix (pathBase info.file) ".spx"
      | _ => ""
    let staged : SpriteNaming :=
      if name0 = "" then
        let nameAndKind : Option (String × SpxResourceRefKind) :=
          if typ = some .spriteName then
            (stringLitOrConstValue expr).map (fun v =>
              (v, if (ExprM.asIdent expr).isSome then .constantReference else .stringLiteral))
          else
            match ExprM.asIdent expr with
            | some (_, _, some (objId, objName), isDef) =>
                if objId ∈ r.spxSpriteResourceAutoBindings then
                  some (objName, if isDef then .autoBinding else .autoBindingReference)
                else none
            | _ => none
        match nameAndKind with
        | none => .failed
        | some (n, k) =>
          if n = "" then .emptyName
          else .named (addSpxResourceRef r ⟨.sprite n, k, expr⟩) n
      else .named r name0
    finishSpriteNaming r exprDocumentURI exprRange staged

/-- The identifier-redirection prologue of
`inspectSpxResourceRefForTypeAtExpr`: for a resource-name type on a
plain identifier, the enclosing-path walk may replace the identifier by
the right-hand side of an assignment to it (modelled by the
`identAssigned` constructor). -/
def applyAssignedRhs (expr0 : ExprM) (typ : Option SpxType) : ExprM :=
  match expr0, typ with
  | .identAssigned _ _ _ _ rhs, some t =>
      if t = .backdropName ∨ t = .spriteName ∨ t = .soundName ∨ t = .widgetName then rhs
      else expr0
  | _, _ => expr0

/-- `inspectSpxResourceRefForTypeAtExpr`: after the redirection
prologue, dispatch on the expected type to the per-kind resolver
(costume / animation resolvers only run with a sprite context, and any
other type resolves as a sprite only when `vfs.HasSpriteType` holds for
it). -/
def inspectSpxResourceRefForTypeAtExpr (r : CompileResult) (expr0 : ExprM)
    (typ : Option SpxType) (spxSpriteResource : Option SpxSpriteResource) : CompileResult :=
  let expr := applyAssignedRhs expr0 typ
  match typ with
  | some .backdropName => (inspectSpxBackdropResourceRefAtExpr r expr typ).1
  | some .spriteName => (inspectSpxSpriteResourceRefAtExpr r expr typ).1
  | some .sprite => (inspectSpxSpriteResourceRefAtExpr r expr typ).1
  | some .spriteCostumeName =>
      match spxSpriteResource with
      | some sp => (inspectSpxSpriteCostumeResourceRefAtExpr r sp expr typ).1
      | none => r
  | some .spriteAnimationName =>
      match spxSpriteResource with
      | some sp => (inspectSpxSpriteAnimationResourceRefAtExpr r sp expr typ).1
      | none => r
  | some .soundName => (inspectSpxSoundResourceRefAtExpr r expr typ).1
  | some .sound => (inspectSpxSoundResourceRefAtExpr r expr typ).1
  | some .widgetName => (inspectSpxWidgetResourceRefAtExpr r expr typ).1
  | some t =>
      if hasSpriteType t then (inspectSpxSpriteResourceRefAtExpr r expr typ).1 else r
  | none => r

/-! ## The definitions pass of `inspectForSpxResourceRefs` -/

/-- The `types.Object` kind relevant to the defs loop. -/
inductive ObjKindM where
  | constK
  | varK
  | otherK
  deriving DecidableEq, Repr

/-- One `(ident, obj)` entry of the `typeInfo.Defs` table as observed by
the defs loop of `inspectForSpxResourceRefs`. -/
structure SpxVarDefM where
  /-- The defining identifier (an `identE`/`identAssigned` expression). -/
  ident : ExprM
  /-- `ident != nil && ident.Pos().IsValid() && obj != nil`. -/
  posValid : Bool
  /-- Identity of the defined object. -/
  objId : Nat
  /-- `obj.Name()`. -/
  objName : String
  objKind : ObjKindM
  /-- `v.Type()` mapped into the model; `none` when the type is not one
  of the spx named types nor any other named type (so the
  `(*types.Named)` assertion fails). -/
  objType : Option SpxType
  /-- The initializer expression matched in the declaring `ValueSpec`
  (none when `ident.Obj` is nil, the declaration is not a `ValueSpec`,
  or there is no value at the identifier's index). -/
  initExpr : Option ExprM
  /-- `InnermostScopeAt(ident.Pos()) == mainSpxFileScope`. -/
  inMainScope : Bool
  /-- `goputil.IsDefinedInClassFieldsDecl(proj, obj)`: declared in the
  first `var` block of the class file. -/
  inFirstVarBlock : Bool

/-- Insert an object identity into an auto-binding set. -/
def insertObj (s : List Nat) (objId : Nat) : List Nat :=
  if objId ∈ s then s else s ++ [objId]

/-- The auto-binding half of the defs-loop body (`compile.go` lines
632–679): for a named-type variable whose defining identifier sits in
the main file at its outermost scope, detect a sound / sprite
auto-binding candidate; a candidate declared outside the first `var`
block draws the warning instead of being registered, otherwise the
object joins the matching auto-binding set and the defining identifier
is itself inspected for a resource reference. -/
def inspectDefsEntryAutoBind (r : CompileResult) (d : SpxVarDefM) : CompileResult :=
  match d.objKind, d.objType with
  | .varK, some varType =>
    if d.ident.info.file ≠ r.mainSpxFile ∨ ¬d.inMainScope then r
    else
      let isSpxSoundResourceAutoBinding : Bool :=
        if varType = .sound then (r.spxResourceSet.Sound d.objName).isSome else false
      let isSpxSpriteResourceAutoBinding : Bool :=
        if varType = .sound then false
        else if varType = .sprite then (r.spxResourceSet.Sprite d.objName).isSome
        else decide (d.objName = varType.typeName) && hasSpriteType varType
      if ¬(isSpxSoundResourceAutoBinding || isSpxSpriteResourceAutoBinding) then r
      else if ¬d.inFirstVarBlock then
        addDiagnostics r (toDocumentURI d.ident.info.file)
          [⟨SeverityWarning, d.ident.info.range,
            "resources must be defined in the first var block for auto-binding"⟩]
      else
        let r :=
          if isSpxSoundResourceAutoBinding then
            { r with spxSoundResourceAutoBindings :=
                insertObj r.spxSoundResourceAutoBindings d.objId }
          else
            { r with spxSpriteResourceAutoBindings :=
                insertObj r.spxSpriteResourceAutoBindings d.objId }
        inspectSpxResourceRefForTypeAtExpr r d.ident (derefType (some varType)) none
  | _, _ => r

/-- The body of the defs loop of `inspectForSpxResourceRefs` for one
`(ident, obj)` entry: first the const/var initializer inspection, then
the auto-binding half. -/
def inspectDefsEntryForSpxResourceRefs (r : CompileResult) (d : SpxVarDefM) : CompileResult :=
  if ¬d.posValid then r
  else
    let r :=
      match d.objKind, d.initExpr with
      | .constK, some e => inspectSpxResourceRefForTypeAtExpr r e (derefType d.objType) none
      | .varK, some e => inspectSpxResourceRefForTypeAtExpr r e (derefType d.objType) none
      | _, _ => r
    inspectDefsEntryAutoBind r d

/-! ## `ModifyFiles` (`text_synchronization.go`) -/

/-- `gop.FileImpl`: content bytes and version. -/
structure FileImpl where
  content : List Nat
  version : Int
  deriving DecidableEq, Repr

/-- `FileChange`. -/
structure FileChange where
  path : String
  content : List Nat
  version : Int
  deriving DecidableEq, Repr

/-- Modelled from the spec: the Project's `PutFile(path, file)` storage
primitive (defined in the `xgo` package façade, outside the provided
sources) stores the file at the path in the project's file map; the
version gate guarding it lives in `Server.ModifyFiles` below. -/
def putFile (files : List (String × FileImpl)) (path : String) (f : FileImpl) :
    List (String × FileImpl) :=
  setKey files path f

/-- `Project.File(path)` lookup. -/
def getFile (files : List (String × FileImpl)) (path : String) : Option FileImpl :=
  match files.find? (fun p => p.1 = path) with
  | some p => some p.2
  | none => none

/-- One iteration of the loop in `Server.ModifyFiles`: build the new
file; if the path already exists, overwrite only when the incoming
version is strictly greater than the stored version; otherwise always
add the new file. -/
def modifyFile1 (files : List (String × FileImpl)) (change : FileChange) :
    List (String × FileImpl) :=
  let file : FileImpl := ⟨change.content, change.version⟩
  match getFile files change.path with
  | some oldFile =>
      if change.version > oldFile.version then putFile files change.path file else files
  | none => putFile files change.path file

/-- `Server.ModifyFiles`: process all changes in a batch. -/
def ModifyFiles (files : List (String × FileImpl)) (changes : List FileChange) :
    List (String × FileImpl) :=
  changes.foldl modifyFile1 files

/-! ## `inspectForSpxResourceSet` (`compile.go`)

`gopast.Inspect` walks the main file's AST in preorder; the visitor only
acts on call expressions whose function is the plain identifier `run`.
The embedding keeps of each AST node exactly what the visitor observes:
whether it is such a call, the nature of its first argument, and its
children (the visitor returns `false` — do not descend — once it has
inspected a matching call's first argument, and `true` everywhere else). -/

/-- The first argument of a `run(...)` call as observed by the visitor:
its entry in `typeInfo.Types`, assignability to `string`, and its
`StringLitOrConstValue`. -/
inductive RunArgM where
  /-- A string literal with unquoted value `v`. -/
  | strLit (v : String) (range : Range)
  /-- A string-typed constant identifier with value `v`. -/
  | strConst (v : String) (range : Range)
  /-- Assignable to `string` but not a literal or constant
  (`StringLitOrConstValue` fails, leaving the empty string). -/
  | strOther (range : Range)
  /-- Not assignable to `string`. -/
  | nonString (range : Range)
  /-- No entry in `typeInfo.Types`. -/
  | noTypeInfo
  deriving DecidableEq, Repr

/-- AST nodes as observed by the `inspectForSpxResourceSet` visitor. -/
inductive RunAstM where
  /-- A `CallExpr` whose `Fun` is the identifier `run`, with its first
  argument (none when the call has no arguments). -/
  | runCall (firstArg : Option RunArgM) (children : List RunAstM)
  /-- Any other node. -/
  | otherNode (children : List RunAstM)

mutual

/-- One visitor step of the `gopast.Inspect` walk in
`inspectForSpxResourceSet`, threading `(result, spxResourceRootDir)`. -/
def inspectRunNode (uri : DocumentURI) (s : CompileResult × String) :
    RunAstM → CompileResult × String
  | .otherNode cs => inspectRunList uri s cs
  | .runCall none cs => inspectRunList uri s cs
  | .runCall (some a) cs =>
    match a with
    | .noTypeInfo => inspectRunList uri s cs
    | .strLit v _ => (s.1, v)
    | .strConst v _ => (s.1, v)
    | .strOther _ => (s.1, "")
    | .nonString rng =>
        (addDiagnostics s.1 uri
          [⟨SeverityError, rng, "first argument of run must be a string literal or constant"⟩],
         s.2)

/-- Preorder walk over a list of sibling subtrees. -/
def inspectRunList (uri : DocumentURI) (s : CompileResult × String) :
    List RunAstM → CompileResult × String
  | [] => s
  | t :: ts => inspectRunList uri (inspectRunNode uri s t) ts

end

/-- `Server.inspectForSpxResourceSet`, up to the determination of
`spxResourceRootDir`: walk the main file for a `run(...)` call; a
string-assignable first argument sets the root directory to its
literal/constant value (empty on a failed extraction), any other typed
first argument produces an error diagnostic; an empty root falls back to
`"assets"`.  (The subsequent `NewSpxResourceSet` load only consumes the
returned directory and is performed by the external resource loader.) -/
def inspectForSpxResourceSet (r : CompileResult) (mainAstFile : RunAstM) :
    CompileResult × String :=
  let documentURI := toDocumentURI r.mainSpxFile
  let s := inspectRunNode documentURI (r, "") mainAstFile
  let spxResourceRootDir := if s.2 = "" then "assets" else s.2
  (s.1, spxResourceRootDir)

/-! ## `compileAt` (`compile.go`) -/

/-- `errNoMainSpxFile`. -/
def errNoMainSpxFile : String := "no valid main.spx file found in main package"

/-- The error classification of `snapshot.AST(spxFile)`'s failure, as
tested by the `errors.As` chain in `compileAt`. -/
inductive ParseErrKind where
  /-- A `gopscanner.ErrorList`: positioned parse errors (each with the
  range computed by `RangeForASTFilePosition` and its message). -/
  | errorList (errs : List (Range × String))
  /-- A `*gogen.CodeError`, with the range of its position and its
  rendered `Error()` message. -/
  | codeError (range : Range) (msg : String)
  /-- Any other error (including recovered panics). -/
  | unknown
  deriving DecidableEq, Repr

/-- One file of the snapshot as observed by `compileAt`: its path and
the outcome of the external parser (`snapshot.AST`). -/
structure SpxFileM where
  path : String
  /-- Whether `AST` returned a non-nil file (it may, even on error). -/
  astPresent : Bool
  /-- `astFile.Name.Name`. -/
  astPkgName : String
  /-- `astFile.Pos().IsValid()`. -/
  astPosValid : Bool
  /-- `RangeForASTFileNode(astFile.Name)`. -/
  astNameRange : Range
  /-- The error returned alongside the AST, when any. -/
  astErr : Option ParseErrKind
  /-- The `%v` rendering of that error (used by the unknown-error path). -/
  errText : String
  deriving DecidableEq, Repr

/-- Modelled from the spec: `vfs.ListSpxFiles` (defined in the `vfs`
package, outside the provided sources) enumerates the snapshot's files
with the dialect's `.spx` extension. -/
def listSpxFiles (files : List SpxFileM) : List SpxFileM :=
  files.filter (fun f => ".spx".data.isSuffixOf f.path.data)

/-- The error-translation block of the `compileAt` loop: parse errors
become positioned error diagnostics (when the AST position is valid),
code-generation errors become one positioned error diagnostic, and any
other error becomes a message-only diagnostic. -/
def compileAtParseDiagnostics (r : CompileResult) (documentURI : DocumentURI)
    (f : SpxFileM) : CompileResult :=
  match f.astErr with
  | none => r
  | some (.errorList errs) =>
    if f.astPosValid then
      errs.foldl
        (fun acc (e : Range × String) =>
          addDiagnostics acc documentURI [⟨SeverityError, e.1, e.2⟩]) r
    else
      addDiagnostics r documentURI
        [⟨SeverityError, zeroRange, "failed to parse spx file: " ++ f.errText⟩]
  | some (.codeError rng msg) =>
      addDiagnostics r documentURI [⟨SeverityError, rng, msg⟩]
  | some .unknown =>
      addDiagnostics r documentURI
        [⟨SeverityError, zeroRange, "failed to parse spx file: " ++ f.errText⟩]

/-- The per-file loop body of `compileAt`: seed an empty diagnostics
entry for the document, translate parse / code-generation / unknown
errors into error diagnostics, skip files without an AST, reject files
whose package is not `main`, and record the file literally named
`main.spx` as the main file. -/
def compileAtFileStep (st : CompileResult) (f : SpxFileM) : CompileResult :=
  let documentURI := toDocumentURI f.path
  let r := compileAtParseDiagnostics
    { st with diagnostics := setKey st.diagnostics documentURI [] } documentURI f
  if ¬f.astPresent then r
  else if f.astPkgName ≠ "main" ∧ f.astPosValid then
    addDiagnostics r documentURI [⟨SeverityError, f.astNameRange, "package name must be main"⟩]
  else if pathBase f.path = "main.spx" then { r with mainSpxFile := f.path }
  else r

/-- `Server.compileAt`: fail with `errNoMainSpxFile` when the snapshot
has no `.spx` files; run the per-file loop; when no main file was
recorded, fail with `errNoMainSpxFile` if the diagnostics map has no
entry at all and otherwise return the partial result.  The phases that
run once a main file exists (type-check error routing, the resource-set
and resource-reference inspections, the analyzers) depend on the
external type checker and are abstracted as `finish`, applied to the
loop's result. -/
def compileAt (files : List SpxFileM) (finish : CompileResult → CompileResult) :
    Except String CompileResult :=
  let spxFiles := listSpxFiles files
  if spxFiles = [] then .error errNoMainSpxFile
  else
    let result := spxFiles.foldl compileAtFileStep newCompileResult
    if result.mainSpxFile = "" then
      if result.diagnostics = [] then .error errNoMainSpxFile
      else .ok result
    else .ok (finish result)

/-- The total number of diagnostics stored in a result (as opposed to
the number of per-document entries of the diagnostics map). -/
def totalDiagnostics (r : CompileResult) : Nat :=
  (r.diagnostics.map (fun p => p.2.length)).sum

/-! ## `spxDefinitionsFor` (`compile.go`) with overload expansion (`util.go`) -/

/-- A `*types.Func` as observed by the definition resolver: identity,
whether its defining identifier is implicit, whether its signature is
the Go+ overloadable shape (`gogen.CheckSigFuncEx` succeeds), and the
concrete overload objects delivered by `gogen.CheckSigFuncExObjects`
(`none` models a nil type result, i.e. no expansion available). -/
inductive FuncM where
  | mk (id : Nat) (implicitDef : Bool) (sigFuncEx : Bool) (overloads : Option (List FuncM))

/-- Whether `DefIdentFor(typeInfo, obj)` is non-nil and implicit. -/
def FuncM.implicitDef : FuncM → Bool
  | .mk _ b _ _ => b

/-- Whether `gogen.CheckSigFuncEx` recognises the overloadable signature. -/
def FuncM.sigFuncEx : FuncM → Bool
  | .mk _ _ b _ => b

/-- The overload objects from `gogen.CheckSigFuncExObjects`. -/
def FuncM.overloads : FuncM → Option (List FuncM)
  | .mk _ _ _ o => o

/-- `isUnexpandableGopOverloadableFunc` (`util.go`): overloadable
signature but no expansion. -/
def isUnexpandableGopOverloadableFunc (f : FuncM) : Bool :=
  f.sigFuncEx && f.overloads.isNone

/-- `expandGopOverloadableFunc` (`util.go`): nil when
`CheckSigFuncExObjects` yields no type, otherwise the (possibly empty)
list of overload functions in order. -/
def expandGopOverloadableFunc (f : FuncM) : Option (List FuncM) :=
  f.overloads

/-- The `types.Object` kinds dispatched by `spxDefinitionsFor`. -/
inductive ObjKindC7 where
  | varObj (definedInClassFieldsDecl : Bool)
  | constObj
  | typeNameObj
  | funcObj (f : FuncM)
  | pkgNameObj
  | otherObj

/-- An object as observed by `spxDefinitionsFor`. -/
structure ObjC7 where
  id : Nat
  /-- `goputil.IsInBuiltinPkg(obj)`. -/
  inBuiltinPkg : Bool
  kind : ObjKindC7

/-- Definition records: each models the corresponding external
`GetSpxDefinitionFor*` constructor applied to the object (package-doc
lookup omitted; it does not influence which records are produced). -/
inductive SpxDefinition where
  | forBuiltin (objId : Nat)
  | forVar (objId : Nat) (selectorTypeName : String) (forceVar : Bool)
  | forConst (objId : Nat)
  | forType (objId : Nat)
  | forFunc (f : FuncM) (selectorTypeName : String)
  | forPkg (objId : Nat)

/-- `compileResult.spxDefinitionsFor`: builtin objects get a single
builtin record; variables / constants / type names / package names get a
single record; a function whose defining identifier is implicit or which
is unexpandable-overloadable yields nothing; an expandable overloadable
function yields one record per overload, in the expansion's order; any
other function yields its own single record. -/
def spxDefinitionsFor (obj : Option ObjC7) (selectorTypeName : String) : List SpxDefinition :=
  match obj with
  | none => []
  | some obj =>
    if obj.inBuiltinPkg then [.forBuiltin obj.id]
    else
      match obj.kind with
      | .varObj definedInClassFieldsDecl =>
          [.forVar obj.id selectorTypeName definedInClassFieldsDecl]
      | .constObj => [.forConst obj.id]
      | .typeNameObj => [.forType obj.id]
      | .funcObj f =>
        if f.implicitDef then []
        else if isUnexpandableGopOverloadableFunc f then []
        else
          match expandGopOverloadableFunc f with
          | some funcOverloads =>
              funcOverloads.map (fun funcOverload => .forFunc funcOverload selectorTypeName)
          | none => [.forFunc f selectorTypeName]
      | .pkgNameObj => [.forPkg obj.id]
      | .otherObj => []

/-- An identifier as observed by `spxDefinitionsForIdent`: its name, the
object from `typeInfo.ObjectOf`, and the (externally computed)
`SelectorTypeNameForIdent`. -/
structure IdentC7 where
  name : String
  obj : Option ObjC7
  selectorTypeName : String

/-- `compileResult.spxDefinitionsForIdent`: the blank identifier yields
nothing; otherwise resolve the identifier's object. -/
def spxDefinitionsForIdent (ident : IdentC7) : List SpxDefinition :=
  if ident.name = "_" then []
  else spxDefinitionsFor ident.obj ident.selectorTypeName

/-! ## Position translation (`util.go`) -/

/-- `utf8.RuneError`. -/
def runeError : Nat := 0xFFFD

/-- Go's UTF-8 decoding of one rune from a byte sequence
(`utf8.DecodeRuneInString`, as performed by `for _, r := range s`):
returns the decoded rune and the number of continuation bytes consumed
from `rest` (an invalid encoding yields `RuneError` consuming only the
leading byte). -/
def decodeRune1 (b : Nat) (rest : List Nat) : Nat × Nat :=
  if b < 0x80 then (b, 0)
  else if b < 0xC2 then (runeError, 0)
  else if b ≤ 0xDF then
    match rest with
    | b1 :: _ =>
        if 0x80 ≤ b1 ∧ b1 ≤ 0xBF then ((b - 0xC0) * 0x40 + (b1 - 0x80), 1)
        else (runeError, 0)
    | [] => (runeError, 0)
  else if b ≤ 0xEF then
    let lo := if b = 0xE0 then 0xA0 else 0x80
    let hi := if b = 0xED then 0x9F else 0xBF
    match rest with
    | b1 :: b2 :: _ =>
        if (lo ≤ b1 ∧ b1 ≤ hi) ∧ (0x80 ≤ b2 ∧ b2 ≤ 0xBF) then
          ((b - 0xE0) * 0x1000 + (b1 - 0x80) * 0x40 + (b2 - 0x80), 2)
        else (runeError, 0)
    | _ => (runeError, 0)
  else if b ≤ 0xF4 then
    let lo := if b = 0xF0 then 0x90 else 0x80
    let hi := if b = 0xF4 then 0x8F else 0xBF
    match rest with
    | b1 :: b2 :: b3 :: _ =>
        if (lo ≤ b1 ∧ b1 ≤ hi) ∧ (0x80 ≤ b2 ∧ b2 ≤ 0xBF) ∧ (0x80 ≤ b3 ∧ b3 ≤ 0xBF) then
          ((b - 0xF0) * 0x40000 + (b1 - 0x80) * 0x1000 + (b2 - 0x80) * 0x40 + (b3 - 0x80), 3)
        else (runeError, 0)
    | _ => (runeError, 0)
  else (runeError, 0)

/-- `utf8.RuneLen` for the runes produced by decoding (always valid
non-surrogate code points or `RuneError`): the number of bytes needed to
encode the rune — not necessarily the number of bytes it was decoded
from. -/
def utf8RuneLen (r : Nat) : Nat :=
  if r ≤ 0x7F then 1 else if r ≤ 0x7FF then 2 else if r ≤ 0xFFFF then 3 else 4

/-- `utf16.RuneLen` for such runes: 2 for supplementary planes, else 1. -/
def utf16RuneLen (r : Nat) : Nat :=
  if 0x10000 ≤ r then 2 else 1

/-- The `for _, r := range s` loop of `utf16OffsetToUTF8`, accumulating
UTF-16 units and the sum of `utf8.RuneLen` values. -/
def utf16OffsetToUTF8Loop (s : List Nat) (utf16Offset utf16Units utf8Bytes : Nat) : Nat :=
  match s with
  | [] => utf8Bytes
  | b :: rest =>
    if utf16Offset ≤ utf16Units then utf8Bytes
    else
      let d := decodeRune1 b rest
      utf16OffsetToUTF8Loop (rest.drop d.2) utf16Offset
        (utf16Units + utf16RuneLen d.1) (utf8Bytes + utf8RuneLen d.1)
termination_by s.length
decreasing_by
  simp only [List.length_cons, List.length_drop]
  omega

/-- `utf16OffsetToUTF8` (`util.go`): non-positive offsets yield 0
(`position.Character` is unsigned, so the model takes a `Nat`). -/
def utf16OffsetToUTF8 (s : List Nat) (utf16Offset : Nat) : Nat :=
  if utf16Offset = 0 then 0
  else utf16OffsetToUTF8Loop s utf16Offset 0 0

/-- The `lineStarts` slice computed by `positionOffset`: 0 plus the
position after each newline byte. -/
def lineStarts (content : List Nat) : List Nat :=
  0 :: (List.range content.length).filterMap (fun i =>
    if content.get? i = some 10 then some (i + 1) else none)

/-- `positionOffset` (`util.go`): empty content yields 0; a line at or
beyond the line count yields `len(content)`; otherwise the line's start
offset plus the in-line UTF-16→UTF-8 conversion of the character. -/
def positionOffset (content : List Nat) (position : Position) : Nat :=
  if content = [] then 0
  else
    let ls := lineStarts content
    let lineIndex := position.line
    if ls.length ≤ lineIndex then content.length
    else
      let lineOffset := ls.getD lineIndex 0
      let lineEndOffset :=
        if lineIndex + 1 < ls.length then ls.getD (lineIndex + 1) 0 - 1 else content.length
      if content.length ≤ lineOffset then content.length
      else
        let lineContent := (content.take (min lineEndOffset content.length)).drop lineOffset
        lineOffset + utf16OffsetToUTF8 lineContent position.character

/-! ## `PathEnclosingInterval` (the AST path utility)

The algorithm operates on any AST through `childrenOf`, which returns
the node's true subtrees plus synthetic token nodes, sorted by position
with nils discarded.  The embedding works on abstract trees that carry
exactly what the algorithm reads from a node: `Pos()`, `End()`, whether
it is a `tokenNode`, and its (already sorted and nil-filtered) children
list; the file root additionally carries `HasPkgDecl()`. -/

/-- An AST node as observed by `PathEnclosingInterval`. -/
inductive PNode where
  | mk (pos pend : Nat) (isTok : Bool) (children : List PNode)

/-- `node.Pos()`. -/
def PNode.pos : PNode → Nat
  | .mk p _ _ _ => p

/-- `node.End()`. -/
def PNode.pend : PNode → Nat
  | .mk _ q _ _ => q

/-- Whether the node is a synthetic `tokenNode`. -/
def PNode.isTok : PNode → Bool
  | .mk _ _ t _ => t

/-- `childrenOf(node)`: the sorted, nil-filtered child list. -/
def PNode.children : PNode → List PNode
  | .mk _ _ _ cs => cs

/-- The decision taken by the child loop of `visit` for a given child
list: falling into inter-child whitespace (inexact return), stopping at
a containing token child (exact return), recursing into a containing
subtree child, or falling through to the exactness check (covering both
the multi-children `break` and normal loop exit). -/
inductive VisitStep (cs : List PNode) : Type where
  | whitespace
  | token
  | recurse (c : PNode) (mem : c ∈ cs)
  | fallThru

/-- Transport a loop decision along `List.cons`. -/
def VisitStep.weaken {c : PNode} {cs : List PNode} : VisitStep cs → VisitStep (c :: cs)
  | .whitespace => .whitespace
  | .token => .token
  | .recurse x h => .recurse x (List.mem_cons_of_mem _ h)
  | .fallThru => .fallThru

/-- The child loop of `visit`: at child `c` (with the previous sibling
carried in `prev`), the augmented interval extends back to the previous
sibling's end and forward to the next sibling's start; the interval
falling strictly between `c` and the next child is a whitespace
(inexact) return; an augmented child containing the interval stops at a
token or recurses into a subtree; an interval overlapping multiple
children breaks out of the loop. -/
def findChild (s e : Nat) : Option PNode → (cs : List PNode) → VisitStep cs
  | _, [] => .fallThru
  | prev, c :: rest =>
    let augPos : Nat :=
      match prev with
      | some pr => pr.pend
      | none => c.pos
    match rest with
    | [] =>
        if augPos ≤ s ∧ e ≤ c.pend then
          if c.isTok then .token else .recurse c (List.mem_cons_self c [])
        else .fallThru
    | next :: rest2 =>
        if c.pend ≤ s ∧ e ≤ next.pos then .whitespace
        else if augPos ≤ s ∧ e ≤ next.pos then
          if c.isTok then .token else .recurse c (List.mem_cons_self c (next :: rest2))
        else if s < c.pend ∧ next.pos < e then .fallThru
        else (findChild s e (some c) (next :: rest2)).weaken

/-- The recursive `visit` closure of `PathEnclosingInterval`: clamp the
interval to the node, consult the child loop, and either stop here
(whitespace: inexact; token child: exact; no containing child: exact iff
the clamped interval equals the node's interval) or recurse into the
containing child, accumulating the path from the outside in. -/
def visit (s e : Nat) (n : PNode) : List PNode × Bool :=
  match n with
  | .mk p q tok cs =>
    let s1 := if s < p then p else s
    let e1 := if q < e then q else e
    match findChild s1 e1 none cs with
    | .whitespace => ([PNode.mk p q tok cs], false)
    | .token => ([PNode.mk p q tok cs], true)
    | .recurse c _ =>
        let res := visit s1 e1 c
        (PNode.mk p q tok cs :: res.1, res.2)
    | .fallThru =>
        if s1 = p ∧ e1 = q then ([PNode.mk p q tok cs], true)
        else ([PNode.mk p q tok cs], false)
termination_by sizeOf n
decreasing_by
  rename_i hmem
  have := List.sizeOf_lt_of_mem hmem
  simp only [PNode.mk.sizeOf_spec]
  omega

/-- `PathEnclosingInterval(root, start, end)`: normalise the interval,
check it intersects the file (a file without a package declaration also
accepts the interval ending at its `Pos()`), widen an empty interval to
one character, run `visit` and reverse the accumulated path; an interval
outside the file yields just the root, inexact. -/
def PathEnclosingInterval (root : PNode) (hasPkgDecl : Bool) (start e0 : Nat) :
    List PNode × Bool :=
  let s := if e0 < start then e0 else start
  let e := if e0 < start then start else e0
  if s < root.pend ∧ (root.pos < e ∨ (¬hasPkgDecl ∧ e = root.pos)) then
    let e := if s = e then s + 1 else e
    let res := visit s e root
    (res.1.reverse, res.2)
  else
    ([root], false)

/-! ## Derived observations used by the properties -/

/-- Whether some stored diagnostic has error severity. -/
def hasStoredErrorDiagnostic (r : CompileResult) : Prop :=
  ∃ uri d, d ∈ diagsAt r uri ∧ d.severity = SeverityError

/-- The auto-binding warning message of `inspectForSpxResourceRefs`. -/
def warnMsg : String := "resources must be defined in the first var block for auto-binding"

/-- How many stored diagnostics of a document carry the auto-binding
warning message. -/
def warnCount (r : CompileResult) (uri : DocumentURI) : Nat :=
  (diagsAt r uri).countP (fun d => d.message == warnMsg)

/-- Two results agree on everything the resource-ref inspectors never
write: the main file, the resource set, and both auto-binding sets. -/
def sameCore (r r' : CompileResult) : Prop :=
  r'.mainSpxFile = r.mainSpxFile ∧ r'.spxResourceSet = r.spxResourceSet ∧
  r'.spxSoundResourceAutoBindings = r.spxSoundResourceAutoBindings ∧
  r'.spxSpriteResourceAutoBindings = r.spxSpriteResourceAutoBindings

/-- The state change performed by any resource-ref inspector: the core
fields are untouched, the seen/stored diagnostic invariant is preserved,
and no diagnostic carrying the auto-binding warning message is added. -/
def inspectorStep (r r' : CompileResult) : Prop :=
  sameCore r r' ∧ (seenInv r → seenInv r') ∧ (∀ uri, warnCount r' uri = warnCount r uri)

mutual

/-- Whether a tree contains no `run`-call node at all. -/
def noRunCall : RunAstM → Bool
  | .runCall _ _ => false
  | .otherNode cs => noRunCallList cs

/-- `noRunCall` over a list of subtrees. -/
def noRunCallList : List RunAstM → Bool
  | [] => true
  | t :: ts => noRunCall t && noRunCallList ts

end

/-! ## Association-list lemmas -/

theorem lookupOr_setKey_self {α : Type} (m : List (String × α)) (k : String) (v d : α) :
    lookupOr (setKey m k v) k d = v := by
  induction m with
  | nil => simp [setKey, lookupOr, List.find?]
  | cons p rest ih =>
    by_cases h : p.1 = k
    · simp [setKey, h, lookupOr, List.find?]
    · simp only [setKey]
      rw [if_neg h]
      simpa [lookupOr, List.find?_cons, h] using ih

theorem lookupOr_setKey_ne {α : Type} (m : List (String × α)) (k k' : String) (v d : α)
    (h : k' ≠ k) : lookupOr (setKey m k v) k' d = lookupOr m k' d := by
  have h' : k ≠ k' := fun hh => h hh.symm
  induction m with
  | nil => simp [setKey, lookupOr, List.find?, h']
  | cons p rest ih =>
    by_cases hp : p.1 = k
    · subst hp
      simp [setKey, lookupOr, List.find?, h']
    · simp only [setKey]
      rw [if_neg hp]
      by_cases hp' : p.1 = k'
      · simp [lookupOr, List.find?, hp']
      · simpa [lookupOr, List.find?, hp'] using ih

theorem setKey_ne_nil {α : Type} (m : List (String × α)) (k : String) (v : α) :
    setKey m k v ≠ [] := by
  cases m with
  | nil => simp [setKey]
  | cons p rest =>
    simp only [setKey]
    split <;> simp

/-! ## `addDiagnostics` lemmas -/

theorem diagsAt_materialize (r : CompileResult) (u uri : DocumentURI) :
    diagsAt { r with diagnostics := setKey r.diagnostics u (lookupOr r.diagnostics u []) } uri
      = diagsAt r uri := by
  by_cases h : uri = u
  · subst h; simp [diagsAt, lookupOr_setKey_self]
  · simp [diagsAt, lookupOr_setKey_ne _ _ _ _ _ h]

theorem diagsAt_addDiagnostic1_of_seen (r : CompileResult) (u : DocumentURI) (d : Diagnostic)
    (h : d ∈ lookupOr r.seenDiagnostics u []) : addDiagnostic1 r u d = r := by
  simp [addDiagnostic1, h]

theorem addDiagnostic1_of_not_seen (r : CompileResult) (u : DocumentURI) (d : Diagnostic)
    (h : d ∉ lookupOr r.seenDiagnostics u []) :
    addDiagnostic1 r u d =
      { r with
        seenDiagnostics := setKey r.seenDiagnostics u (lookupOr r.seenDiagnostics u [] ++ [d])
        diagnostics := setKey r.diagnostics u (lookupOr r.diagnostics u [] ++ [d])
        hasErrorSeverityDiagnostic :=
          r.hasErrorSeverityDiagnostic || decide (d.severity = SeverityError) } := by
  simp [addDiagnostic1, h]

theorem seenInv_addDiagnostic1 (r : CompileResult) (u : DocumentURI) (d : Diagnostic)
    (h : seenInv r) : seenInv (addDiagnostic1 r u d) := by
  by_cases hseen : d ∈ lookupOr r.seenDiagnostics u []
  · rw [diagsAt_addDiagnostic1_of_seen r u d hseen]; exact h
  · rw [addDiagnostic1_of_not_seen r u d hseen]
    intro uri x
    by_cases huri : uri = u
    · subst huri
      simp only [lookupOr_setKey_self, List.mem_append, List.mem_singleton]
      constructor
      · rintro (hx | rfl)
        · exact Or.inl ((h uri x).mp hx)
        · exact Or.inr rfl
      · rintro (hx | rfl)
        · exact Or.inl ((h uri x).mpr hx)
        · exact Or.inr rfl
    · simpa [lookupOr_setKey_ne _ _ _ _ _ huri] using h uri x

theorem seenInv_materialize (r : CompileResult) (u : DocumentURI)
    (h : seenInv r) :
    seenInv { r with diagnostics := setKey r.diagnostics u (lookupOr r.diagnostics u []) } := by
  intro uri d
  by_cases huri : uri = u
  · subst huri
    simpa [lookupOr_setKey_self] using h uri d
  · simpa [lookupOr_setKey_ne _ _ _ _ _ huri] using h uri d

theorem seenInv_addDiagnostics (r : CompileResult) (u : DocumentURI) (ds : List Diagnostic)
    (h : seenInv r) : seenInv (addDiagnostics r u ds) := by
  rw [addDiagnostics]
  have hm := seenInv_materialize r u h
  generalize { r with diagnostics := setKey r.diagnostics u (lookupOr r.diagnostics u []) }
    = r0 at hm ⊢
  induction ds generalizing r0 with
  | nil => simpa using hm
  | cons d rest ih =>
    simp only [List.foldl_cons]
    exact ih _ (seenInv_addDiagnostic1 r0 u d hm)

theorem diagsAt_addDiagnostic1_mem (r : CompileResult) (u : DocumentURI) (d : Diagnostic)
    (hInv : seenInv r) (h : d ∈ diagsAt r u) : addDiagnostic1 r u d = r :=
  diagsAt_addDiagnostic1_of_seen r u d ((hInv u d).mpr h)

theorem diagsAt_addDiagnostic1_not_mem (r : CompileResult) (u : DocumentURI) (d : Diagnostic)
    (hInv : seenInv r) (h : d ∉ diagsAt r u) :
    diagsAt (addDiagnostic1 r u d) u = diagsAt r u ++ [d] := by
  rw [addDiagnostic1_of_not_seen r u d (fun hs => h ((hInv u d).mp hs))]
  simp [diagsAt, lookupOr_setKey_self]

theorem diagsAt_addDiagnostics_single_not_mem (r : CompileResult) (u : DocumentURI)
    (d : Diagnostic) (hInv : seenInv r) (h : d ∉ diagsAt r u) :
    diagsAt (addDiagnostics r u [d]) u = diagsAt r u ++ [d] := by
  rw [addDiagnostics]
  simp only [List.foldl_cons, List.foldl_nil]
  have hm : diagsAt { r with
      diagnostics := setKey r.diagnostics u (lookupOr r.diagnostics u []) } u = diagsAt r u :=
    diagsAt_materialize r u u
  rw [diagsAt_addDiagnostic1_not_mem _ u d (seenInv_materialize r u hInv) (by rwa [hm]), hm]

theorem diagsAt_addDiagnostics_single_mem (r : CompileResult) (u : DocumentURI)
    (d : Diagnostic) (hInv : seenInv r) (h : d ∈ diagsAt r u) :
    diagsAt (addDiagnostics r u [d]) u = diagsAt r u := by
  rw [addDiagnostics]
  simp only [List.foldl_cons, List.foldl_nil]
  have hm : diagsAt { r with
      diagnostics := setKey r.diagnostics u (lookupOr r.diagnostics u []) } u = diagsAt r u :=
    diagsAt_materialize r u u
  rw [diagsAt_addDiagnostic1_mem _ u d (seenInv_materialize r u hInv) (by rwa [hm]), hm]

theorem diagsAt_addDiagnostics_ne (r : CompileResult) (u uri : DocumentURI)
    (ds : List Diagnostic) (h : uri ≠ u) :
    diagsAt (addDiagnostics r u ds) uri = diagsAt r uri := by
  rw [addDiagnostics]
  have hm : diagsAt { r with
      diagnostics := setKey r.diagnostics u (lookupOr r.diagnostics u []) } uri = diagsAt r uri :=
    diagsAt_materialize r u uri
  generalize { r with diagnostics := setKey r.diagnostics u (lookupOr r.diagnostics u []) }
    = r0 at hm ⊢
  induction ds generalizing r0 with
  | nil => simpa using hm
  | cons d rest ih =>
    simp only [List.foldl_cons]
    apply ih
    by_cases hseen : d ∈ lookupOr r0.seenDiagnostics u []
    · rw [diagsAt_addDiagnostic1_of_seen r0 u d hseen]; exact hm
    · rw [addDiagnostic1_of_not_seen r0 u d hseen]
      simpa [diagsAt, lookupOr_setKey_ne _ _ _ _ _ h] using hm

/-! ## C3: version monotonicity of `ModifyFiles` -/

theorem getFile_putFile_self (files : List (String × FileImpl)) (p : String) (f : FileImpl) :
    getFile (putFile files p f) p = some f := by
  induction files with
  | nil => simp [putFile, setKey, getFile, List.find?]
  | cons q rest ih =>
    by_cases h : q.1 = p
    · simp [putFile, setKey, h, getFile, List.find?]
    · simp only [putFile, setKey] at ih ⊢
      rw [if_neg h]
      simpa [getFile, List.find?, h] using ih

/-- C3: storing `(c1, v1)` at a path whose stored version (if any) is
below `v1` and then attempting to store `(c2, v2)` with `v2 < v1` leaves
the stored file equal to `(c1, v1)`; in general `ModifyFiles` leaves an
existing entry untouched unless the new version is strictly greater, in
which case it overwrites it. -/
theorem ModifyFiles_version_gate
    (files : List (String × FileImpl)) (p : String) (c1 c2 : List Nat) (v1 v2 : Int)
    (hfresh : ∀ old, getFile files p = some old → old.version < v1)
    (hlt : v2 < v1) :
    getFile (ModifyFiles (ModifyFiles files [⟨p, c1, v1⟩]) [⟨p, c2, v2⟩]) p = some ⟨c1, v1⟩
    ∧ (∀ (fs : List (String × FileImpl)) (q : String) (c : List Nat) (v : Int)
        (old : FileImpl), getFile fs q = some old → ¬ old.version < v →
        ModifyFiles fs [⟨q, c, v⟩] = fs)
    ∧ (∀ (fs : List (String × FileImpl)) (q : String) (c : List Nat) (v : Int)
        (old : FileImpl), getFile fs q = some old → old.version < v →
        getFile (ModifyFiles fs [⟨q, c, v⟩]) q = some ⟨c, v⟩) := by
  have hsingle : ∀ (fs : List (String × FileImpl)) (ch : FileChange),
      ModifyFiles fs [ch] = modifyFile1 fs ch := by
    intro fs ch
    simp [ModifyFiles]
  refine ⟨?_, ?_, ?_⟩
  · have h1 : getFile (ModifyFiles files [⟨p, c1, v1⟩]) p = some ⟨c1, v1⟩ := by
      rw [hsingle]
      rw [modifyFile1]
      cases h : getFile files p with
      | none => simpa using getFile_putFile_self files p ⟨c1, v1⟩
      | some old =>
          simp only []
          rw [if_pos (hfresh old h)]
          simpa using getFile_putFile_self files p ⟨c1, v1⟩
    rw [hsingle, modifyFile1, h1]
    simp only []
    rw [if_neg (show ¬ ((⟨c1, v1⟩ : FileImpl).version < v2) from by
      change ¬ (v1 < v2); omega)]
    exact h1
  · intro fs q c v old h hnot
    rw [hsingle, modifyFile1, h]
    simp only []
    rw [if_neg hnot]
  · intro fs q c v old h hlt'
    rw [hsingle, modifyFile1, h]
    simp only []
    rw [if_pos hlt']
    exact getFile_putFile_self fs q ⟨c, v⟩

theorem ModifyFiles_version_gate_witness :
    (∀ old, getFile [] "main.spx" = some old → old.version < 2)
    ∧ (1 : Int) < 2
    ∧ getFile (ModifyFiles (ModifyFiles [] [⟨"main.spx", [97], 2⟩]) [⟨"main.spx", [98], 1⟩])
        "main.spx" = some ⟨[97], 2⟩ :=
  ⟨fun old h => by simp [getFile, List.find?] at h, by norm_num,
    (ModifyFiles_version_gate [] "main.spx" [97] [98] 2 1
      (fun old h => by simp [getFile, List.find?] at h) (by norm_num)).1⟩

/-! ## C2: per-document diagnostic dedup -/

/-- C2: on any `compileResult` whose seen-sets match its stored
diagnostics, adding the same `(severity, range, message)` triple twice
for the same document URI grows that document's stored list by exactly
one element; the triple ends up stored exactly once for that document,
and adding it under a second, distinct document URI stores it exactly
once there as well, leaving the first document's copy in place. -/
theorem addDiagnostics_dedup (r : CompileResult) (u u' : DocumentURI) (d : Diagnostic)
    (hInv : seenInv r) (hnew : d ∉ diagsAt r u) (hne : u' ≠ u) (hnew' : d ∉ diagsAt r u') :
    (diagsAt (addDiagnostics (addDiagnostics r u [d]) u [d]) u).length
        = (diagsAt r u).length + 1
    ∧ (diagsAt (addDiagnostics (addDiagnostics r u [d]) u [d]) u).count d = 1
    ∧ (diagsAt (addDiagnostics (addDiagnostics (addDiagnostics r u [d]) u [d]) u' [d]) u').count d
        = 1
    ∧ (diagsAt (addDiagnostics (addDiagnostics (addDiagnostics r u [d]) u [d]) u' [d]) u).count d
        = 1 := by
  have h1 : diagsAt (addDiagnostics r u [d]) u = diagsAt r u ++ [d] :=
    diagsAt_addDiagnostics_single_not_mem r u d hInv hnew
  have hInv1 : seenInv (addDiagnostics r u [d]) := seenInv_addDiagnostics r u [d] hInv
  have hmem : d ∈ diagsAt (addDiagnostics r u [d]) u := by
    rw [h1]; exact List.mem_append_right _ (List.mem_singleton_self d)
  have h2 : diagsAt (addDiagnostics (addDiagnostics r u [d]) u [d]) u
      = diagsAt (addDiagnostics r u [d]) u :=
    diagsAt_addDiagnostics_single_mem _ u d hInv1 hmem
  have hInv2 : seenInv (addDiagnostics (addDiagnostics r u [d]) u [d]) :=
    seenInv_addDiagnostics _ u [d] hInv1
  have hcount : (diagsAt (addDiagnostics (addDiagnostics r u [d]) u [d]) u).count d = 1 := by
    rw [h2, h1]
    rw [List.count_append]
    rw [List.count_eq_zero_of_not_mem hnew]
    simp
  have h2u' : diagsAt (addDiagnostics (addDiagnostics r u [d]) u [d]) u' = diagsAt r u' := by
    rw [diagsAt_addDiagnostics_ne _ u u' [d] hne, diagsAt_addDiagnostics_ne _ u u' [d] hne]
  have h3 : diagsAt (addDiagnostics (addDiagnostics (addDiagnostics r u [d]) u [d]) u' [d]) u'
      = diagsAt r u' ++ [d] := by
    rw [diagsAt_addDiagnostics_single_not_mem _ u' d hInv2 (by rw [h2u']; exact hnew'), h2u']
  have hneu : u ≠ u' := fun hh => hne hh.symm
  have h3u : diagsAt (addDiagnostics (addDiagnostics (addDiagnostics r u [d]) u [d]) u' [d]) u
      = diagsAt r u ++ [d] := by
    rw [diagsAt_addDiagnostics_ne _ u' u [d] hneu, h2, h1]
  refine ⟨?_, hcount, ?_, ?_⟩
  · rw [h2, h1]; simp
  · rw [h3, List.count_append, List.count_eq_zero_of_not_mem hnew']; simp
  · rw [h3u, List.count_append, List.count_eq_zero_of_not_mem hnew]; simp

theorem addDiagnostics_dedup_witness :
    seenInv newCompileResult
    ∧ (⟨SeverityError, zeroRange, "boom"⟩ : Diagnostic)
        ∉ diagsAt newCompileResult "file:///a.spx"
    ∧ ("file:///b.spx" : DocumentURI) ≠ "file:///a.spx"
    ∧ (diagsAt
        (addDiagnostics (addDiagnostics newCompileResult "file:///a.spx"
          [⟨SeverityError, zeroRange, "boom"⟩]) "file:///a.spx"
          [⟨SeverityError, zeroRange, "boom"⟩]) "file:///a.spx").length
      = (diagsAt newCompileResult "file:///a.spx").length + 1 :=
  ⟨fun uri x => by simp [newCompileResult, lookupOr, List.find?],
   by simp [diagsAt, newCompileResult, lookupOr, List.find?],
   by decide,
   (addDiagnostics_dedup newCompileResult "file:///a.spx" "file:///b.spx"
      ⟨SeverityError, zeroRange, "boom"⟩
      (fun uri x => by simp [newCompileResult, lookupOr, List.find?])
      (by simp [diagsAt, newCompileResult, lookupOr, List.find?])
      (by decide)
      (by simp [diagsAt, newCompileResult, lookupOr, List.find?])).1⟩

/-! ## C10: the error-severity flag invariant -/

theorem flagInv_addDiagnostic1 (r : CompileResult) (u : DocumentURI) (d : Diagnostic)
    (h : r.hasErrorSeverityDiagnostic = true ↔ hasStoredErrorDiagnostic r) :
    (addDiagnostic1 r u d).hasErrorSeverityDiagnostic = true
      ↔ hasStoredErrorDiagnostic (addDiagnostic1 r u d) := by
  by_cases hseen : d ∈ lookupOr r.seenDiagnostics u []
  · rw [diagsAt_addDiagnostic1_of_seen r u d hseen]; exact h
  · rw [addDiagnostic1_of_not_seen r u d hseen]
    have hdiags : ∀ uri, diagsAt { r with
        seenDiagnostics := setKey r.seenDiagnostics u (lookupOr r.seenDiagnostics u [] ++ [d])
        diagnostics := setKey r.diagnostics u (lookupOr r.diagnostics u [] ++ [d])
        hasErrorSeverityDiagnostic :=
          r.hasErrorSeverityDiagnostic || decide (d.severity = SeverityError) } uri
        = if uri = u then diagsAt r uri ++ [d] else diagsAt r uri := by
      intro uri
      by_cases huri : uri = u
      · subst huri; simp [diagsAt, lookupOr_setKey_self]
      · simp [diagsAt, huri, lookupOr_setKey_ne _ _ _ _ _ huri]
    constructor
    · intro hflag
      simp only [Bool.or_eq_true, decide_eq_true_eq] at hflag
      cases hflag with
      | inl hold =>
          obtain ⟨uri, x, hx, hsev⟩ := h.mp hold
          refine ⟨uri, x, ?_, hsev⟩
          rw [hdiags uri]
          split
          · exact List.mem_append_left _ hx
          · exact hx
      | inr herr =>
          refine ⟨u, d, ?_, herr⟩
          rw [hdiags u]
          simp
    · rintro ⟨uri, x, hx, hsev⟩
      simp only [Bool.or_eq_true, decide_eq_true_eq]
      rw [hdiags uri] at hx
      by_cases huri : uri = u
      · rw [if_pos huri] at hx
        rcases List.mem_append.mp hx with hx | hx
        · exact Or.inl (h.mpr ⟨uri, x, hx, hsev⟩)
        · rcases List.mem_singleton.mp hx with rfl
          exact Or.inr hsev
      · rw [if_neg huri] at hx
        exact Or.inl (h.mpr ⟨uri, x, hx, hsev⟩)

theorem flagInv_addDiagnostics (r : CompileResult) (u : DocumentURI) (ds : List Diagnostic)
    (h : r.hasErrorSeverityDiagnostic = true ↔ hasStoredErrorDiagnostic r) :
    (addDiagnostics r u ds).hasErrorSeverityDiagnostic = true
      ↔ hasStoredErrorDiagnostic (addDiagnostics r u ds) := by
  rw [addDiagnostics]
  have hmat : ({ r with
      diagnostics := setKey r.diagnostics u (lookupOr r.diagnostics u []) }
        : CompileResult).hasErrorSeverityDiagnostic = true
      ↔ hasStoredErrorDiagnostic
        { r with diagnostics := setKey r.diagnostics u (lookupOr r.diagnostics u []) } := by
    simpa [hasStoredErrorDiagnostic, diagsAt_materialize] using h
  generalize { r with diagnostics := setKey r.diagnostics u (lookupOr r.diagnostics u []) }
    = r0 at hmat ⊢
  induction ds generalizing r0 with
  | nil => simpa using hmat
  | cons x rest ih =>
    simp only [List.foldl_cons]
    exact ih _ (flagInv_addDiagnostic1 r0 u x hmat)

/-- C10: in every `compileResult` reachable from `newCompileResult` by
`addDiagnostics` calls, the `hasErrorSeverityDiagnostic` flag is true
exactly when some stored diagnostic has error severity (suppressed
duplicates leave both sides unchanged). -/
theorem hasErrorSeverityDiagnostic_iff (r : CompileResult)
    (h : ReachableByAddDiagnostics r) :
    r.hasErrorSeverityDiagnostic = true ↔ hasStoredErrorDiagnostic r := by
  induction h with
  | base =>
      constructor
      · intro hh; simp [newCompileResult] at hh
      · rintro ⟨uri, x, hx, _⟩
        simp [diagsAt, newCompileResult, lookupOr, List.find?] at hx
  | step r0 u ds hr ih => exact flagInv_addDiagnostics r0 u ds ih

theorem hasErrorSeverityDiagnostic_iff_witness :
    ReachableByAddDiagnostics
      (addDiagnostics newCompileResult "file:///main.spx" [⟨SeverityError, zeroRange, "x"⟩])
    ∧ ((addDiagnostics newCompileResult "file:///main.spx"
          [⟨SeverityError, zeroRange, "x"⟩]).hasErrorSeverityDiagnostic = true
        ↔ hasStoredErrorDiagnostic
          (addDiagnostics newCompileResult "file:///main.spx"
            [⟨SeverityError, zeroRange, "x"⟩])) :=
  ⟨.step _ _ _ .base,
   hasErrorSeverityDiagnostic_iff _ (.step _ _ _ .base)⟩

/-! ## C7: overload expansion in the definition resolver -/

/-- C7: for an identifier resolving to a non-builtin, non-implicit
overloadable function whose expansion yields the overload list `os`
(with `os ≠ []`), `spxDefinitionsForIdent` returns exactly one
definition record per overload, in the expansion's order; when the
function is overloadable but unexpandable, it returns the empty
sequence. -/
theorem spxDefinitionsForIdent_overload_expansion (ident : IdentC7) (o : ObjC7) (f : FuncM)
    (os : List FuncM)
    (hname : ident.name ≠ "_") (hobj : ident.obj = some o) (hb : o.inBuiltinPkg = false)
    (hk : o.kind = .funcObj f) (him : f.implicitDef = false) :
    (f.overloads = some os → os ≠ [] →
      spxDefinitionsForIdent ident
          = os.map (fun fo => SpxDefinition.forFunc fo ident.selectorTypeName)
        ∧ (spxDefinitionsForIdent ident).length = os.length)
    ∧ (f.sigFuncEx = true → f.overloads = none → spxDefinitionsForIdent ident = []) := by
  constructor
  · intro hov _hne
    have hmain : spxDefinitionsForIdent ident
        = os.map (fun fo => SpxDefinition.forFunc fo ident.selectorTypeName) := by
      rw [spxDefinitionsForIdent, if_neg hname, hobj]
      simp [spxDefinitionsFor, hb, hk, him, isUnexpandableGopOverloadableFunc,
        expandGopOverloadableFunc, hov]
    exact ⟨hmain, by rw [hmain]; simp⟩
  · intro hsig hnone
    rw [spxDefinitionsForIdent, if_neg hname, hobj]
    simp [spxDefinitionsFor, hb, hk, him, isUnexpandableGopOverloadableFunc,
      expandGopOverloadableFunc, hsig, hnone]

theorem spxDefinitionsForIdent_overload_expansion_witness :
    ("play" : String) ≠ "_"
    ∧ (FuncM.mk 1 false true (some [FuncM.mk 10 false false none,
        FuncM.mk 11 false false none])).overloads
      = some [FuncM.mk 10 false false none, FuncM.mk 11 false false none]
    ∧ ([FuncM.mk 10 false false none, FuncM.mk 11 false false none] ≠ [])
    ∧ spxDefinitionsForIdent
        ⟨"play", some ⟨1, false, .funcObj (FuncM.mk 1 false true
          (some [FuncM.mk 10 false false none, FuncM.mk 11 false false none]))⟩, "Sprite"⟩
      = [SpxDefinition.forFunc (FuncM.mk 10 false false none) "Sprite",
         SpxDefinition.forFunc (FuncM.mk 11 false false none) "Sprite"] := by
  refine ⟨by decide, rfl, by simp, ?_⟩
  have h := (spxDefinitionsForIdent_overload_expansion
      ⟨"play", some ⟨1, false, .funcObj (FuncM.mk 1 false true
        (some [FuncM.mk 10 false false none, FuncM.mk 11 false false none]))⟩, "Sprite"⟩
      ⟨1, false, .funcObj (FuncM.mk 1 false true
        (some [FuncM.mk 10 false false none, FuncM.mk 11 false false none]))⟩
      (FuncM.mk 1 false true
        (some [FuncM.mk 10 false false none, FuncM.mk 11 false false none]))
      [FuncM.mk 10 false false none, FuncM.mk 11 false false none]
      (by decide) rfl rfl rfl rfl).1 rfl (by simp)
  simpa using h.1

/-! ## C8: `positionOffset` escapes the content bounds on invalid UTF-8 -/

/-- C8: at the one-byte content `[0xFF]` (an invalid UTF-8 encoding) and
position (line 0, character 1), `positionOffset` returns 3, which
exceeds the content length 1: `utf16OffsetToUTF8` sums `utf8.RuneLen` of
the replacement rune (3 bytes) instead of the decoded width (1 byte),
so the "result lies in [0, len(content)]" part of the claim — and the
function's own closing comment — is violated by the code. -/
theorem positionOffset_exceeds_content_length :
    positionOffset [0xFF] ⟨0, 1⟩ = 3 ∧ ([0xFF] : List Nat).length = 1 := by
  constructor
  · rw [positionOffset]
    rw [if_neg (by simp)]
    simp only [lineStarts, List.length_cons, List.length_nil, List.range]
    norm_num [List.range, List.filterMap, utf16OffsetToUTF8]
    rw [utf16OffsetToUTF8Loop]
    norm_num [decodeRune1, runeError, utf8RuneLen, utf16RuneLen]
    rw [utf16OffsetToUTF8Loop]
  · rfl

/-! ## C1: the no-main-file error paths of `compileAt` -/

theorem addDiagnostic1_diagnostics_ne_nil (r : CompileResult) (u : DocumentURI)
    (d : Diagnostic) (h : r.diagnostics ≠ []) : (addDiagnostic1 r u d).diagnostics ≠ [] := by
  rw [addDiagnostic1]
  split
  · exact h
  · exact setKey_ne_nil _ _ _

theorem addDiagnostics_diagnostics_ne_nil (r : CompileResult) (u : DocumentURI)
    (ds : List Diagnostic) : (addDiagnostics r u ds).diagnostics ≠ [] := by
  rw [addDiagnostics]
  have h0 : ({ r with diagnostics := setKey r.diagnostics u (lookupOr r.diagnostics u []) }
      : CompileResult).diagnostics ≠ [] := setKey_ne_nil _ _ _
  generalize { r with diagnostics := setKey r.diagnostics u (lookupOr r.diagnostics u []) }
    = r0 at h0 ⊢
  induction ds generalizing r0 with
  | nil => simpa using h0
  | cons d rest ih =>
    simp only [List.foldl_cons]
    exact ih _ (addDiagnostic1_diagnostics_ne_nil r0 u d h0)

theorem compileAtParseDiagnostics_ne_nil (r : CompileResult) (u : DocumentURI)
    (f : SpxFileM) (h : r.diagnostics ≠ []) :
    (compileAtParseDiagnostics r u f).diagnostics ≠ [] := by
  have herrs : ∀ (errs : List (Range × String)) (r0 : CompileResult), r0.diagnostics ≠ [] →
      (errs.foldl (fun acc (e : Range × String) =>
        addDiagnostics acc u [⟨SeverityError, e.1, e.2⟩]) r0).diagnostics ≠ [] := by
    intro errs
    induction errs with
    | nil => intro r0 h0; simpa using h0
    | cons e rest ih =>
        intro r0 h0
        simp only [List.foldl_cons]
        exact ih _ (addDiagnostics_diagnostics_ne_nil r0 _ _)
  rw [compileAtParseDiagnostics]
  cases f.astErr with
  | none => exact h
  | some k =>
    cases k with
    | errorList errs =>
        by_cases hv : f.astPosValid
        · simpa [hv] using herrs errs r h
        · simpa [hv] using addDiagnostics_diagnostics_ne_nil r _ _
    | codeError rng msg => exact addDiagnostics_diagnostics_ne_nil r _ _
    | unknown => exact addDiagnostics_diagnostics_ne_nil r _ _

theorem compileAtFileStep_diagnostics_ne_nil (st : CompileResult) (f : SpxFileM) :
    (compileAtFileStep st f).diagnostics ≠ [] := by
  have hmid : (compileAtParseDiagnostics
      { st with diagnostics := setKey st.diagnostics (toDocumentURI f.path) [] }
      (toDocumentURI f.path) f).diagnostics ≠ [] :=
    compileAtParseDiagnostics_ne_nil _ _ _ (setKey_ne_nil _ _ _)
  simp only [compileAtFileStep]
  split
  · exact hmid
  · split
    · exact addDiagnostics_diagnostics_ne_nil _ _ _
    · split
      · exact hmid
      · exact hmid

theorem foldl_compileAtFileStep_diagnostics_ne_nil (files : List SpxFileM)
    (init : CompileResult) (h : files ≠ []) :
    (files.foldl compileAtFileStep init).diagnostics ≠ [] := by
  induction files generalizing init with
  | nil => exact absurd rfl h
  | cons f fs ih =>
    simp only [List.foldl_cons]
    cases fs with
    | nil => simpa using compileAtFileStep_diagnostics_ne_nil init f
    | cons g gs => exact ih _ (by simp)

/-- C1 counterexample: the snapshot containing the single clean,
non-main-named file `foo.spx` (package `main`, no parse error) produces
no diagnostic at all and records no main file, yet `compileAt` returns
the partial result instead of the no-main-file error: every enumerated
`.spx` file seeds a (possibly empty) entry in the diagnostics map, so
the `len(result.diagnostics) == 0` branch never fires once `.spx` files
exist. -/
theorem compileAt_counterexample :
    compileAt [⟨"foo.spx", true, "main", true, zeroRange, none, ""⟩] id
      = .ok { newCompileResult with diagnostics := [("file:///foo.spx", [])] }
    ∧ ({ newCompileResult with diagnostics := [("file:///foo.spx", [])] }
        : CompileResult).mainSpxFile = ""
    ∧ totalDiagnostics
        { newCompileResult with diagnostics := [("file:///foo.spx", [])] } = 0 := by
  refine ⟨?_, rfl, rfl⟩
  rfl

/-- C1 (amended): `compileAt` fails with the no-main-file error exactly
when the snapshot has no `.spx` files; when `.spx` files exist but the
loop records no main file, it always returns the partial result — the
no-diagnostics error branch tests the diagnostics *map*, and every
`.spx` file seeds an entry there, so that branch is unreachable in this
case. -/
theorem compileAt_no_main (files : List SpxFileM) (finish : CompileResult → CompileResult) :
    (listSpxFiles files = [] → compileAt files finish = .error errNoMainSpxFile)
    ∧ (listSpxFiles files ≠ [] →
        ((listSpxFiles files).foldl compileAtFileStep newCompileResult).mainSpxFile = "" →
        compileAt files finish
          = .ok ((listSpxFiles files).foldl compileAtFileStep newCompileResult)) := by
  constructor
  · intro h
    simp [compileAt, h]
  · intro hne hmain
    rw [compileAt]
    simp only []
    rw [if_neg hne, if_pos hmain,
      if_neg (foldl_compileAtFileStep_diagnostics_ne_nil _ _ hne)]

theorem compileAt_no_main_witness :
    (listSpxFiles [] = [] ∧ compileAt [] id = .error errNoMainSpxFile)
    ∧ (listSpxFiles [⟨"foo.spx", true, "main", true, zeroRange, none, ""⟩] ≠ []
       ∧ ((listSpxFiles [⟨"foo.spx", true, "main", true, zeroRange, none, ""⟩]).foldl
            compileAtFileStep newCompileResult).mainSpxFile = ""
       ∧ compileAt [⟨"foo.spx", true, "main", true, zeroRange, none, ""⟩] id
          = .ok ((listSpxFiles [⟨"foo.spx", true, "main", true, zeroRange, none, ""⟩]).foldl
              compileAtFileStep newCompileResult)) :=
  ⟨⟨rfl, (compileAt_no_main [] id).1 rfl⟩,
   ⟨by decide, rfl,
    (compileAt_no_main [⟨"foo.spx", true, "main", true, zeroRange, none, ""⟩] id).2
      (by decide) rfl⟩⟩

/-! ## C5: the resource-root `run` argument -/

mutual

theorem inspectRunNode_noRun (uri : DocumentURI) (s : CompileResult × String) (t : RunAstM)
    (h : noRunCall t = true) : inspectRunNode uri s t = s :=
  match t with
  | .runCall a cs => by simp [noRunCall] at h
  | .otherNode cs => by
      rw [inspectRunNode]
      exact inspectRunList_noRun uri s cs (by simpa [noRunCall] using h)

theorem inspectRunList_noRun (uri : DocumentURI) (s : CompileResult × String)
    (ts : List RunAstM) (h : noRunCallList ts = true) : inspectRunList uri s ts = s :=
  match ts with
  | [] => by rw [inspectRunList]
  | t :: ts' => by
      rw [inspectRunList]
      have h1 : noRunCall t = true := by
        have := h
        simp [noRunCallList, Bool.and_eq_true] at this
        exact this.1
      have h2 : noRunCallList ts' = true := by
        have := h
        simp [noRunCallList, Bool.and_eq_true] at this
        exact this.2
      rw [inspectRunNode_noRun uri s t h1]
      exact inspectRunList_noRun uri s ts' h2

end

theorem inspectRunList_append (uri : DocumentURI) (s : CompileResult × String)
    (l1 l2 : List RunAstM) :
    inspectRunList uri s (l1 ++ l2) = inspectRunList uri (inspectRunList uri s l1) l2 := by
  induction l1 generalizing s with
  | nil => rw [inspectRunList]; simp
  | cons t ts ih =>
      rw [List.cons_append, inspectRunList, inspectRunList, ih]

theorem inspectForSpxResourceSet_reduce (r : CompileResult) (ts1 ts2 cs : List RunAstM)
    (a : RunArgM) (h1 : noRunCallList ts1 = true) (h2 : noRunCallList ts2 = true) :
    inspectForSpxResourceSet r (.otherNode (ts1 ++ .runCall (some a) cs :: ts2))
      = ((inspectRunNode (toDocumentURI r.mainSpxFile) (r, "") (.runCall (some a) cs)).1,
         if (inspectRunNode (toDocumentURI r.mainSpxFile) (r, "")
              (.runCall (some a) cs)).2 = "" then "assets"
         else (inspectRunNode (toDocumentURI r.mainSpxFile) (r, "")
              (.runCall (some a) cs)).2) := by
  rw [inspectForSpxResourceSet]
  rw [show inspectRunNode (toDocumentURI r.mainSpxFile) (r, "")
        (.otherNode (ts1 ++ .runCall (some a) cs :: ts2))
      = inspectRunList (toDocumentURI r.mainSpxFile) (r, "")
          (ts1 ++ .runCall (some a) cs :: ts2) from by rw [inspectRunNode]]
  rw [inspectRunList_append, inspectRunList_noRun _ _ _ h1, inspectRunList,
    inspectRunList_noRun _ _ _ h2]

/-- C5 (amended): for a main file whose only `run(...)` call has first
argument `a`: a string literal or string-typed constant with non-empty
value `v` sets the resource root to `v` with no diagnostic; a
string-typed first argument that is not a literal or constant — and
likewise a literal/constant empty value — yields the default `"assets"`
root with *no* diagnostic (the error is only emitted when the argument's
type is not assignable to `string`); a non-string-typed first argument
produces the *"first argument of run must be a string literal or
constant"* error diagnostic and the `"assets"` default. -/
theorem inspectForSpxResourceSet_run_first_arg (r : CompileResult)
    (ts1 ts2 cs : List RunAstM)
    (h1 : noRunCallList ts1 = true) (h2 : noRunCallList ts2 = true) :
    (∀ v rng, v ≠ "" →
      inspectForSpxResourceSet r
        (.otherNode (ts1 ++ .runCall (some (.strLit v rng)) cs :: ts2)) = (r, v))
    ∧ (∀ v rng, v ≠ "" →
      inspectForSpxResourceSet r
        (.otherNode (ts1 ++ .runCall (some (.strConst v rng)) cs :: ts2)) = (r, v))
    ∧ (∀ rng,
      inspectForSpxResourceSet r
        (.otherNode (ts1 ++ .runCall (some (.strOther rng)) cs :: ts2)) = (r, "assets"))
    ∧ (∀ rng,
      inspectForSpxResourceSet r
        (.otherNode (ts1 ++ .runCall (some (.strLit "" rng)) cs :: ts2)) = (r, "assets"))
    ∧ (∀ rng,
      inspectForSpxResourceSet r
        (.otherNode (ts1 ++ .runCall (some (.nonString rng)) cs :: ts2))
        = (addDiagnostics r (toDocumentURI r.mainSpxFile)
            [⟨SeverityError, rng,
              "first argument of run must be a string literal or constant"⟩], "assets")) := by
  refine ⟨?_, ?_, ?_, ?_, ?_⟩
  · intro v rng hv
    rw [inspectForSpxResourceSet_reduce r ts1 ts2 cs _ h1 h2]
    rw [inspectRunNode]
    simp [hv]
  · intro v rng hv
    rw [inspectForSpxResourceSet_reduce r ts1 ts2 cs _ h1 h2]
    rw [inspectRunNode]
    simp [hv]
  · intro rng
    rw [inspectForSpxResourceSet_reduce r ts1 ts2 cs _ h1 h2]
    rw [inspectRunNode]
    simp
  · intro rng
    rw [inspectForSpxResourceSet_reduce r ts1 ts2 cs _ h1 h2]
    rw [inspectRunNode]
    simp
  · intro rng
    rw [inspectForSpxResourceSet_reduce r ts1 ts2 cs _ h1 h2]
    rw [inspectRunNode]
    simp

/-- C5 counterexample: with a single `run` call whose first argument is
string-typed but neither a literal nor a constant — e.g. `run d` for a
string variable `d`, precisely an argument "that is not a string literal
or string-typed constant" — the compile emits *no* diagnostic (the state
is returned unchanged) and defaults the root; and with the string
literal argument `""`, the literal's value is *not* used as the root:
the root falls back to `"assets"`.  Both contradict the claim as
stated. -/
theorem inspectForSpxResourceSet_counterexample :
    inspectForSpxResourceSet { newCompileResult with mainSpxFile := "main.spx" }
        (.otherNode [.runCall (some (.strOther zeroRange)) []])
      = ({ newCompileResult with mainSpxFile := "main.spx" }, "assets")
    ∧ (inspectForSpxResourceSet { newCompileResult with mainSpxFile := "main.spx" }
        (.otherNode [.runCall (some (.strLit "" zeroRange)) []])).2 = "assets" :=
  ⟨rfl, rfl⟩

theorem inspectForSpxResourceSet_run_first_arg_witness :
    noRunCallList [] = true
    ∧ inspectForSpxResourceSet { newCompileResult with mainSpxFile := "main.spx" }
        (.otherNode ([] ++ .runCall (some (.nonString zeroRange)) [] :: []))
      = (addDiagnostics { newCompileResult with mainSpxFile := "main.spx" }
          (toDocumentURI ({ newCompileResult with mainSpxFile := "main.spx" }
            : CompileResult).mainSpxFile)
          [⟨SeverityError, zeroRange,
            "first argument of run must be a string literal or constant"⟩], "assets") :=
  ⟨rfl,
   (inspectForSpxResourceSet_run_first_arg
      { newCompileResult with mainSpxFile := "main.spx" } [] [] [] rfl rfl).2.2.2.2
      zeroRange⟩

/-! ## `addSpxResourceRef` and field-preservation lemmas -/

theorem addSpxResourceRef_spxResourceSet (r : CompileResult) (ref : SpxResourceRef) :
    (addSpxResourceRef r ref).spxResourceSet = r.spxResourceSet := by
  rw [addSpxResourceRef]; split <;> rfl

theorem addSpxResourceRef_diagnostics (r : CompileResult) (ref : SpxResourceRef) :
    (addSpxResourceRef r ref).diagnostics = r.diagnostics := by
  rw [addSpxResourceRef]; split <;> rfl

theorem addSpxResourceRef_seenDiagnostics (r : CompileResult) (ref : SpxResourceRef) :
    (addSpxResourceRef r ref).seenDiagnostics = r.seenDiagnostics := by
  rw [addSpxResourceRef]; split <;> rfl

theorem seenInv_addSpxResourceRef (r : CompileResult) (ref : SpxResourceRef)
    (h : seenInv r) : seenInv (addSpxResourceRef r ref) := by
  intro uri d
  rw [show lookupOr (addSpxResourceRef r ref).seenDiagnostics uri []
      = lookupOr r.seenDiagnostics uri [] from by rw [addSpxResourceRef_seenDiagnostics],
    show lookupOr (addSpxResourceRef r ref).diagnostics uri []
      = lookupOr r.diagnostics uri [] from by rw [addSpxResourceRef_diagnostics]]
  exact h uri d

theorem diagsAt_addSpxResourceRef (r : CompileResult) (ref : SpxResourceRef)
    (uri : DocumentURI) : diagsAt (addSpxResourceRef r ref) uri = diagsAt r uri := by
  simp [diagsAt, addSpxResourceRef_diagnostics]

theorem mem_addSpxResourceRef (r : CompileResult) (ref : SpxResourceRef)
    (hRefInv : ∀ x, x ∈ r.seenSpxResourceRefs ↔ x ∈ r.spxResourceRefs) :
    ref ∈ (addSpxResourceRef r ref).spxResourceRefs := by
  rw [addSpxResourceRef]
  split
  · rename_i hseen
    exact (hRefInv ref).mp hseen
  · exact List.mem_append_right _ (List.mem_singleton_self ref)

theorem addDiagnostic1_spxResourceRefs (r : CompileResult) (u : DocumentURI)
    (d : Diagnostic) : (addDiagnostic1 r u d).spxResourceRefs = r.spxResourceRefs := by
  rw [addDiagnostic1]; split <;> rfl

theorem addDiagnostics_spxResourceRefs (r : CompileResult) (u : DocumentURI)
    (ds : List Diagnostic) : (addDiagnostics r u ds).spxResourceRefs = r.spxResourceRefs := by
  rw [addDiagnostics]
  have h0 : ({ r with diagnostics := setKey r.diagnostics u (lookupOr r.diagnostics u []) }
      : CompileResult).spxResourceRefs = r.spxResourceRefs := rfl
  generalize { r with diagnostics := setKey r.diagnostics u (lookupOr r.diagnostics u []) }
    = r0 at h0 ⊢
  induction ds generalizing r0 with
  | nil => simpa using h0
  | cons d rest ih =>
    simp only [List.foldl_cons]
    rw [ih _ ]
    rw [addDiagnostic1_spxResourceRefs]
    exact h0

theorem mem_diagsAt_addDiagnostics_single (r : CompileResult) (u : DocumentURI)
    (d : Diagnostic) (hInv : seenInv r) : d ∈ diagsAt (addDiagnostics r u [d]) u := by
  by_cases h : d ∈ diagsAt r u
  · rw [diagsAt_addDiagnostics_single_mem r u d hInv h]; exact h
  · rw [diagsAt_addDiagnostics_single_not_mem r u d hInv h]
    exact List.mem_append_right _ (List.mem_singleton_self d)

/-! ## C4: the sound resolver records the reference before the miss error -/

/-- C4: when the sound resolver inspects an expression of the sound-name
type whose extracted name is non-empty but absent from the resource set,
it records the `SpxResourceRef` (with the sound ID and the expression
node), emits the *"sound resource ... not found"* error diagnostic at
the expression, and returns nil — the reference is recorded even though
the lookup misses. -/
theorem inspectSpxSoundResourceRefAtExpr_missing (r : CompileResult) (expr : ExprM)
    (declaredType : Option SpxType) (name : String)
    (hInv : seenInv r)
    (hRefInv : ∀ x, x ∈ r.seenSpxResourceRefs ↔ x ∈ r.spxResourceRefs)
    (htyp : effectiveType declaredType expr = some .soundName)
    (hval : stringLitOrConstValue expr = some name)
    (hne : name ≠ "")
    (hmiss : r.spxResourceSet.Sound name = none) :
    (inspectSpxSoundResourceRefAtExpr r expr declaredType).2 = none
    ∧ (∃ k, (⟨.sound name, k, expr⟩ : SpxResourceRef)
        ∈ (inspectSpxSoundResourceRefAtExpr r expr declaredType).1.spxResourceRefs)
    ∧ (⟨SeverityError, expr.info.range,
          "sound resource " ++ goQuote name ++ " not found"⟩ : Diagnostic)
        ∈ diagsAt (inspectSpxSoundResourceRefAtExpr r expr declaredType).1
            (nodeDocumentURI expr) := by
  set k0 : SpxResourceRefKind :=
    if (ExprM.asIdent expr).isSome then .constantReference else .stringLiteral with hk0
  have hstep : inspectSpxSoundResourceRefAtExpr r expr declaredType
      = (addDiagnostics (addSpxResourceRef r ⟨.sound name, k0, expr⟩)
          (nodeDocumentURI expr)
          [⟨SeverityError, expr.info.range,
            "sound resource " ++ goQuote name ++ " not found"⟩], none) := by
    rw [inspectSpxSoundResourceRefAtExpr]
    simp only [htyp, hval, Option.map_some']
    rw [if_neg hne]
    have hset : (addSpxResourceRef r ⟨.sound name, k0, expr⟩).spxResourceSet.Sound name
        = none := by rw [addSpxResourceRef_spxResourceSet]; exact hmiss
    simp only [hset]
  rw [hstep]
  refine ⟨rfl, ⟨k0, ?_⟩, ?_⟩
  · rw [addDiagnostics_spxResourceRefs]
    exact mem_addSpxResourceRef r _ hRefInv
  · exact mem_diagsAt_addDiagnostics_single _ _ _
      (seenInv_addSpxResourceRef r _ hInv)

theorem inspectSpxSoundResourceRefAtExpr_missing_witness :
    seenInv newCompileResult
    ∧ effectiveType none (.lit ⟨"main.spx", zeroRange, some .soundName, none⟩ "missing")
        = some .soundName
    ∧ stringLitOrConstValue (.lit ⟨"main.spx", zeroRange, some .soundName, none⟩ "missing")
        = some "missing"
    ∧ ("missing" : String) ≠ ""
    ∧ newCompileResult.spxResourceSet.Sound "missing" = none
    ∧ (inspectSpxSoundResourceRefAtExpr newCompileResult
        (.lit ⟨"main.spx", zeroRange, some .soundName, none⟩ "missing") none).2 = none
    ∧ (∃ k, (⟨.sound "missing", k,
          .lit ⟨"main.spx", zeroRange, some .soundName, none⟩ "missing"⟩ : SpxResourceRef)
        ∈ (inspectSpxSoundResourceRefAtExpr newCompileResult
            (.lit ⟨"main.spx", zeroRange, some .soundName, none⟩ "missing")
            none).1.spxResourceRefs) := by
  have hInv : seenInv newCompileResult := fun uri x => by
    simp [newCompileResult, lookupOr, List.find?]
  have hRefInv : ∀ x, x ∈ newCompileResult.seenSpxResourceRefs
      ↔ x ∈ newCompileResult.spxResourceRefs := fun x => by simp [newCompileResult]
  have h := inspectSpxSoundResourceRefAtExpr_missing newCompileResult
    (.lit ⟨"main.spx", zeroRange, some .soundName, none⟩ "missing") none "missing"
    hInv hRefInv rfl rfl (by decide) rfl
  exact ⟨hInv, rfl, rfl, by decide, rfl, h.1, h.2.1⟩

/-! ## Message-string lemmas: no inspector message is the warning -/

theorem data_head_append (a x : String) (c : Char) (h : a.data.head? = some c) :
    (a ++ x).data.head? = some c := by
  rw [String.data_append]
  cases hd : a.data with
  | nil => rw [hd] at h; simp at h
  | cons y ys =>
      rw [hd] at h
      simp only [List.head?_cons, Option.some.injEq] at h
      simp [h]

theorem append_ne_warnMsg (a x : String) (c : Char) (ha : a.data.head? = some c)
    (hc : c ≠ 'r') : a ++ x ≠ warnMsg := by
  intro h
  have h2 := congrArg (fun s => s.data.head?) h
  simp only [data_head_append a x c ha] at h2
  have h3 : warnMsg.data.head? = some 'r' := rfl
  rw [h3] at h2
  exact hc (Option.some.injEq _ _ ▸ h2)

theorem soundNotFound_ne_warnMsg (n : String) :
    "sound resource " ++ goQuote n ++ " not found" ≠ warnMsg :=
  append_ne_warnMsg _ _ 's' (data_head_append _ _ 's' rfl) (by decide)

theorem spriteNotFound_ne_warnMsg (n : String) :
    "sprite resource " ++ goQuote n ++ " not found" ≠ warnMsg :=
  append_ne_warnMsg _ _ 's' (data_head_append _ _ 's' rfl) (by decide)

theorem backdropNotFound_ne_warnMsg (n : String) :
    "backdrop resource " ++ goQuote n ++ " not found" ≠ warnMsg :=
  append_ne_warnMsg _ _ 'b' (data_head_append _ _ 'b' rfl) (by decide)

theorem widgetNotFound_ne_warnMsg (n : String) :
    "widget resource " ++ goQuote n ++ " not found" ≠ warnMsg :=
  append_ne_warnMsg _ _ 'w' (data_head_append _ _ 'w' rfl) (by decide)

theorem costumeNotFound_ne_warnMsg (n m : String) :
    "costume resource " ++ goQuote n ++ " not found in sprite " ++ goQuote m ≠ warnMsg :=
  append_ne_warnMsg _ _ 'c'
    (data_head_append _ _ 'c' (data_head_append _ _ 'c' rfl)) (by decide)

theorem animationNotFound_ne_warnMsg (n m : String) :
    "animation resource " ++ goQuote n ++ " not found in sprite " ++ goQuote m ≠ warnMsg :=
  append_ne_warnMsg _ _ 'a'
    (data_head_append _ _ 'a' (data_head_append _ _ 'a' rfl)) (by decide)

/-! ## `warnCount` preservation -/

theorem warnCount_addDiagnostic1 (r : CompileResult) (u : DocumentURI) (d : Diagnostic)
    (hd : d.message ≠ warnMsg) (uri : DocumentURI) :
    warnCount (addDiagnostic1 r u d) uri = warnCount r uri := by
  by_cases hseen : d ∈ lookupOr r.seenDiagnostics u []
  · rw [diagsAt_addDiagnostic1_of_seen r u d hseen]
  · rw [warnCount, warnCount, addDiagnostic1_of_not_seen r u d hseen]
    by_cases huri : uri = u
    · subst huri
      simp only [diagsAt, lookupOr_setKey_self]
      rw [List.countP_append]
      simp [hd]
    · simp [diagsAt, lookupOr_setKey_ne _ _ _ _ _ huri]

theorem warnCount_addDiagnostics (r : CompileResult) (u : DocumentURI)
    (ds : List Diagnostic) (h : ∀ d ∈ ds, d.message ≠ warnMsg) (uri : DocumentURI) :
    warnCount (addDiagnostics r u ds) uri = warnCount r uri := by
  rw [addDiagnostics]
  have h0 : warnCount { r with
      diagnostics := setKey r.diagnostics u (lookupOr r.diagnostics u []) } uri
      = warnCount r uri := by
    rw [warnCount, warnCount, diagsAt_materialize]
  generalize { r with diagnostics := setKey r.diagnostics u (lookupOr r.diagnostics u []) }
    = r0 at h0 ⊢
  induction ds generalizing r0 with
  | nil => simpa using h0
  | cons d rest ih =>
    simp only [List.foldl_cons]
    rw [ih (fun x hx => h x (List.mem_cons_of_mem d hx)) _]
    rw [warnCount_addDiagnostic1 r0 u d (h d (List.mem_cons_self d rest)) uri]
    exact h0

/-! ## `inspectorStep` algebra -/

theorem sameCore_refl (r : CompileResult) : sameCore r r := ⟨rfl, rfl, rfl, rfl⟩

theorem sameCore_trans {r1 r2 r3 : CompileResult} (h1 : sameCore r1 r2)
    (h2 : sameCore r2 r3) : sameCore r1 r3 :=
  ⟨h2.1.trans h1.1, h2.2.1.trans h1.2.1, h2.2.2.1.trans h1.2.2.1, h2.2.2.2.trans h1.2.2.2⟩

theorem inspectorStep_refl (r : CompileResult) : inspectorStep r r :=
  ⟨sameCore_refl r, fun h => h, fun _ => rfl⟩

theorem inspectorStep_trans {r1 r2 r3 : CompileResult} (h1 : inspectorStep r1 r2)
    (h2 : inspectorStep r2 r3) : inspectorStep r1 r3 :=
  ⟨sameCore_trans h1.1 h2.1, fun h => h2.2.1 (h1.2.1 h),
   fun uri => (h2.2.2 uri).trans (h1.2.2 uri)⟩

theorem sameCore_addDiagnostic1 (r : CompileResult) (u : DocumentURI) (d : Diagnostic) :
    sameCore r (addDiagnostic1 r u d) := by
  rw [addDiagnostic1]
  split
  · exact sameCore_refl r
  · exact ⟨rfl, rfl, rfl, rfl⟩

theorem sameCore_addDiagnostics (r : CompileResult) (u : DocumentURI)
    (ds : List Diagnostic) : sameCore r (addDiagnostics r u ds) := by
  rw [addDiagnostics]
  have h0 : sameCore r
      { r with diagnostics := setKey r.diagnostics u (lookupOr r.diagnostics u []) } :=
    ⟨rfl, rfl, rfl, rfl⟩
  generalize { r with diagnostics := setKey r.diagnostics u (lookupOr r.diagnostics u []) }
    = r0 at h0 ⊢
  induction ds generalizing r0 with
  | nil => simpa using h0
  | cons d rest ih =>
    simp only [List.foldl_cons]
    exact ih _ (sameCore_trans h0 (sameCore_addDiagnostic1 r0 u d))

theorem inspectorStep_addDiagnostics (r : CompileResult) (u : DocumentURI)
    (ds : List Diagnostic) (h : ∀ d ∈ ds, d.message ≠ warnMsg) :
    inspectorStep r (addDiagnostics r u ds) :=
  ⟨sameCore_addDiagnostics r u ds, seenInv_addDiagnostics r u ds,
   warnCount_addDiagnostics r u ds h⟩

theorem inspectorStep_addSpxResourceRef (r : CompileResult) (ref : SpxResourceRef) :
    inspectorStep r (addSpxResourceRef r ref) := by
  refine ⟨?_, seenInv_addSpxResourceRef r ref, ?_⟩
  · rw [addSpxResourceRef]
    split
    · exact sameCore_refl r
    · exact ⟨rfl, rfl, rfl, rfl⟩
  · intro uri
    rw [warnCount, warnCount, diagsAt_addSpxResourceRef]

theorem inspectorStep_single_msg (r : CompileResult) (u : DocumentURI) (sev : Nat)
    (rng : Range) (msg : String) (h : msg ≠ warnMsg) :
    inspectorStep r (addDiagnostics r u [⟨sev, rng, msg⟩]) :=
  inspectorStep_addDiagnostics r u _ (by
    intro d hd
    rcases List.mem_singleton.mp hd with rfl
    exact h)

theorem inspectorStep_ref_then_msg (r : CompileResult) (ref : SpxResourceRef)
    (u : DocumentURI) (sev : Nat) (rng : Range) (msg : String) (h : msg ≠ warnMsg) :
    inspectorStep r (addDiagnostics (addSpxResourceRef r ref) u [⟨sev, rng, msg⟩]) :=
  inspectorStep_trans (inspectorStep_addSpxResourceRef r ref)
    (inspectorStep_single_msg _ u sev rng msg h)

theorem inspectorStep_inspectSpxBackdropResourceRefAtExpr (r : CompileResult)
    (expr : ExprM) (t : Option SpxType) :
    inspectorStep r (inspectSpxBackdropResourceRefAtExpr r expr t).1 := by
  simp only [inspectSpxBackdropResourceRefAtExpr]
  split
  · exact inspectorStep_refl r
  · split
    · exact inspectorStep_refl r
    · split
      · exact inspectorStep_single_msg r _ _ _ _ (by decide)
      · split
        · exact inspectorStep_ref_then_msg r _ _ _ _ _ (backdropNotFound_ne_warnMsg _)
        · exact inspectorStep_addSpxResourceRef r _

theorem inspectorStep_inspectSpxWidgetResourceRefAtExpr (r : CompileResult)
    (expr : ExprM) (t : Option SpxType) :
    inspectorStep r (inspectSpxWidgetResourceRefAtExpr r expr t).1 := by
  simp only [inspectSpxWidgetResourceRefAtExpr]
  repeat' split
  all_goals first
    | exact inspectorStep_refl _
    | exact inspectorStep_single_msg _ _ _ _ _ (by decide)
    | exact inspectorStep_ref_then_msg _ _ _ _ _ _ (widgetNotFound_ne_warnMsg _)
    | exact inspectorStep_addSpxResourceRef _ _

theorem inspectorStep_inspectSpxSpriteCostumeResourceRefAtExpr (r : CompileResult)
    (sp : SpxSpriteResource) (expr : ExprM) (t : Option SpxType) :
    inspectorStep r (inspectSpxSpriteCostumeResourceRefAtExpr r sp expr t).1 := by
  simp only [inspectSpxSpriteCostumeResourceRefAtExpr]
  repeat' split
  all_goals first
    | exact inspectorStep_refl _
    | exact inspectorStep_single_msg _ _ _ _ _ (by decide)
    | exact inspectorStep_ref_then_msg _ _ _ _ _ _ (costumeNotFound_ne_warnMsg _ _)
    | exact inspectorStep_addSpxResourceRef _ _

theorem inspectorStep_inspectSpxSpriteAnimationResourceRefAtExpr (r : CompileResult)
    (sp : SpxSpriteResource) (expr : ExprM) (t : Option SpxType) :
    inspectorStep r (inspectSpxSpriteAnimationResourceRefAtExpr r sp expr t).1 := by
  simp only [inspectSpxSpriteAnimationResourceRefAtExpr]
  repeat' split
  all_goals first
    | exact inspectorStep_refl _
    | exact inspectorStep_single_msg _ _ _ _ _ (by decide)
    | exact inspectorStep_ref_then_msg _ _ _ _ _ _ (animationNotFound_ne_warnMsg _ _)
    | exact inspectorStep_addSpxResourceRef _ _

theorem inspectorStep_inspectSpxSoundResourceRefAtExpr (r : CompileResult)
    (expr : ExprM) (t : Option SpxType) :
    inspectorStep r (inspectSpxSoundResourceRefAtExpr r expr t).1 := by
  simp only [inspectSpxSoundResourceRefAtExpr]
  repeat' split
  all_goals first
    | exact inspectorStep_refl _
    | exact inspectorStep_single_msg _ _ _ _ _ (by decide)
    | exact inspectorStep_ref_then_msg _ _ _ _ _ _ (soundNotFound_ne_warnMsg _)
    | exact inspectorStep_addSpxResourceRef _ _

theorem inspectorStep_finishSpriteNaming (r : CompileResult) (uri : DocumentURI)
    (rng : Range) (st : SpriteNaming)
    (hst : st = .failed ∨ st = .emptyName ∨ ∃ r' n, st = .named r' n ∧ inspectorStep r r') :
    inspectorStep r (finishSpriteNaming r uri rng st).1 := by
  rcases hst with rfl | rfl | ⟨r', n, rfl, h⟩
  · exact inspectorStep_refl r
  · exact inspectorStep_single_msg r uri _ _ _ (by decide)
  · rw [finishSpriteNaming]
    split
    · exact inspectorStep_trans h (inspectorStep_single_msg r' uri _ _ _
        (spriteNotFound_ne_warnMsg _))
    · exact h

theorem inspectorStep_inspectSpxSpriteResourceRefAtExpr (r : CompileResult)
    (expr : ExprM) (t : Option SpxType) :
    inspectorStep r (inspectSpxSpriteResourceRefAtExpr r expr t).1 := by
  induction expr generalizing r with
  | callSelector info x ih =>
      rw [inspectSpxSpriteResourceRefAtExpr]
      split
      · exact ih r
      · exact inspectorStep_refl r
  | _ =>
      simp only [inspectSpxSpriteResourceRefAtExpr]
      first
        | exact inspectorStep_refl r
        | (apply inspectorStep_finishSpriteNaming
           repeat' split
           all_goals first
             | exact Or.inl rfl
             | exact Or.inr (Or.inl rfl)
             | exact Or.inr (Or.inr ⟨_, _, rfl, inspectorStep_addSpxResourceRef _ _⟩)
             | exact Or.inr (Or.inr ⟨_, _, rfl, inspectorStep_refl _⟩))

theorem inspectorStep_inspectSpxResourceRefForTypeAtExpr (r : CompileResult)
    (expr : ExprM) (typ : Option SpxType) (sp : Option SpxSpriteResource) :
    inspectorStep r (inspectSpxResourceRefForTypeAtExpr r expr typ sp) := by
  simp only [inspectSpxResourceRefForTypeAtExpr]
  repeat' split
  all_goals first
    | exact inspectorStep_refl _
    | exact inspectorStep_inspectSpxBackdropResourceRefAtExpr _ _ _
    | exact inspectorStep_inspectSpxSpriteResourceRefAtExpr _ _ _
    | exact inspectorStep_inspectSpxSoundResourceRefAtExpr _ _ _
    | exact inspectorStep_inspectSpxWidgetResourceRefAtExpr _ _ _
    | exact inspectorStep_inspectSpxSpriteCostumeResourceRefAtExpr _ _ _ _
    | exact inspectorStep_inspectSpxSpriteAnimationResourceRefAtExpr _ _ _ _

/-! ## C6: auto-binding candidates and the first-var-block warning -/

theorem mem_insertObj (s : List Nat) (a : Nat) : a ∈ insertObj s a := by
  rw [insertObj]
  split
  · assumption
  · exact List.mem_append_right _ (List.mem_singleton_self a)

theorem inspectDefsEntryAutoBind_spec (r r1 : CompileResult) (d : SpxVarDefM)
    (varType : SpxType)
    (hstep : inspectorStep r r1)
    (hInv : seenInv r)
    (hkind : d.objKind = .varK) (htype : d.objType = some varType)
    (hfile : d.ident.info.file = r.mainSpxFile) (hscope : d.inMainScope = true)
    (hcand : (varType = .sound ∧ (r.spxResourceSet.Sound d.objName).isSome = true)
      ∨ (varType = .sprite ∧ (r.spxResourceSet.Sprite d.objName).isSome = true)
      ∨ (∃ tn, varType = .otherNamed tn true ∧ d.objName = tn)) :
    (d.inFirstVarBlock = false →
      ((⟨SeverityWarning, d.ident.info.range, warnMsg⟩ : Diagnostic)
          ∈ diagsAt (inspectDefsEntryAutoBind r1 d) (toDocumentURI d.ident.info.file)
        ∧ (inspectDefsEntryAutoBind r1 d).spxSoundResourceAutoBindings
            = r.spxSoundResourceAutoBindings
        ∧ (inspectDefsEntryAutoBind r1 d).spxSpriteResourceAutoBindings
            = r.spxSpriteResourceAutoBindings))
    ∧ (d.inFirstVarBlock = true →
      ((varType = .sound →
          d.objId ∈ (inspectDefsEntryAutoBind r1 d).spxSoundResourceAutoBindings)
        ∧ (varType ≠ .sound →
          d.objId ∈ (inspectDefsEntryAutoBind r1 d).spxSpriteResourceAutoBindings)
        ∧ ∀ uri, warnCount (inspectDefsEntryAutoBind r1 d) uri = warnCount r uri)) := by
  obtain ⟨hcore, hseenp, hwc⟩ := hstep
  have hmain1 : r1.mainSpxFile = r.mainSpxFile := hcore.1
  have hset1 : r1.spxResourceSet = r.spxResourceSet := hcore.2.1
  have hsound1 : r1.spxSoundResourceAutoBindings = r.spxSoundResourceAutoBindings :=
    hcore.2.2.1
  have hsprite1 : r1.spxSpriteResourceAutoBindings = r.spxSpriteResourceAutoBindings :=
    hcore.2.2.2
  have hInv1 : seenInv r1 := hseenp hInv
  obtain ⟨ident, posValid, objId, objName, objKind, objType, initExpr,
    inMainScope, inFirstVarBlock⟩ := d
  simp only at hkind htype hfile hscope hcand ⊢
  subst hkind htype hscope
  have hfile1 : ident.info.file = r1.mainSpxFile := hfile.trans hmain1.symm
  rcases hcand with ⟨hv, hsnd⟩ | ⟨hv, hsp⟩ | ⟨tn, hv, hname⟩
  all_goals subst hv
  -- sound candidate
  · have hres : ∀ b, inspectDefsEntryAutoBind r1
        ⟨ident, posValid, objId, objName, .varK, some .sound, initExpr, true, b⟩
        = if b then
            inspectSpxResourceRefForTypeAtExpr
              { r1 with spxSoundResourceAutoBindings :=
                  insertObj r1.spxSoundResourceAutoBindings objId }
              ident (derefType (some .sound)) none
          else
            addDiagnostics r1 (toDocumentURI ident.info.file)
              [⟨SeverityWarning, ident.info.range, warnMsg⟩] := by
      intro b
      rw [inspectDefsEntryAutoBind]
      simp only [hfile1, hset1, hsnd, warnMsg]
      cases b <;> simp
    constructor
    · intro hb
      rw [show inFirstVarBlock = false from hb, hres false, if_neg (by simp)]
      refine ⟨mem_diagsAt_addDiagnostics_single r1 _ _ hInv1, ?_, ?_⟩
      · exact ((sameCore_addDiagnostics r1 _ _).2.2.1).trans hsound1
      · exact ((sameCore_addDiagnostics r1 _ _).2.2.2).trans hsprite1
    · intro hb
      rw [show inFirstVarBlock = true from hb, hres true, if_pos rfl]
      have hd := inspectorStep_inspectSpxResourceRefForTypeAtExpr
        { r1 with spxSoundResourceAutoBindings :=
            insertObj r1.spxSoundResourceAutoBindings objId }
        ident (derefType (some .sound)) none
      refine ⟨fun _ => ?_, fun hne => absurd rfl hne, fun uri => ?_⟩
      · rw [hd.1.2.2.1]
        exact mem_insertObj _ _
      · rw [hd.2.2 uri]
        exact hwc uri
  -- sprite candidate (spx sprite type)
  · have hres : ∀ b, inspectDefsEntryAutoBind r1
        ⟨ident, posValid, objId, objName, .varK, some .sprite, initExpr, true, b⟩
        = if b then
            inspectSpxResourceRefForTypeAtExpr
              { r1 with spxSpriteResourceAutoBindings :=
                  insertObj r1.spxSpriteResourceAutoBindings objId }
              ident (derefType (some .sprite)) none
          else
            addDiagnostics r1 (toDocumentURI ident.info.file)
              [⟨SeverityWarning, ident.info.range, warnMsg⟩] := by
      intro b
      rw [inspectDefsEntryAutoBind]
      simp only [hfile1, hset1, hsp, warnMsg]
      cases b <;> simp
    constructor
    · intro hb
      rw [show inFirstVarBlock = false from hb, hres false, if_neg (by simp)]
      refine ⟨mem_diagsAt_addDiagnostics_single r1 _ _ hInv1, ?_, ?_⟩
      · exact ((sameCore_addDiagnostics r1 _ _).2.2.1).trans hsound1
      · exact ((sameCore_addDiagnostics r1 _ _).2.2.2).trans hsprite1
    · intro hb
      rw [show inFirstVarBlock = true from hb, hres true, if_pos rfl]
      have hd := inspectorStep_inspectSpxResourceRefForTypeAtExpr
        { r1 with spxSpriteResourceAutoBindings :=
            insertObj r1.spxSpriteResourceAutoBindings objId }
        ident (derefType (some .sprite)) none
      refine ⟨fun hv => by simp at hv, fun _ => ?_, fun uri => ?_⟩
      · rw [hd.1.2.2.2]
        exact mem_insertObj _ _
      · rw [hd.2.2 uri]
        exact hwc uri
  -- project sprite class type (default case of the switch)
  · subst hname
    have hres : ∀ b, inspectDefsEntryAutoBind r1
        ⟨ident, posValid, objId, objName, .varK, some (.otherNamed objName true), initExpr,
          true, b⟩
        = if b then
            inspectSpxResourceRefForTypeAtExpr
              { r1 with spxSpriteResourceAutoBindings :=
                  insertObj r1.spxSpriteResourceAutoBindings objId }
              ident (derefType (some (.otherNamed objName true))) none
          else
            addDiagnostics r1 (toDocumentURI ident.info.file)
              [⟨SeverityWarning, ident.info.range, warnMsg⟩] := by
      intro b
      rw [inspectDefsEntryAutoBind]
      simp only [hfile1, hset1, warnMsg, SpxType.typeName, hasSpriteType]
      cases b <;> simp
    constructor
    · intro hb
      rw [show inFirstVarBlock = false from hb, hres false, if_neg (by simp)]
      refine ⟨mem_diagsAt_addDiagnostics_single r1 _ _ hInv1, ?_, ?_⟩
      · exact ((sameCore_addDiagnostics r1 _ _).2.2.1).trans hsound1
      · exact ((sameCore_addDiagnostics r1 _ _).2.2.2).trans hsprite1
    · intro hb
      rw [show inFirstVarBlock = true from hb, hres true, if_pos rfl]
      have hd := inspectorStep_inspectSpxResourceRefForTypeAtExpr
        { r1 with spxSpriteResourceAutoBindings :=
            insertObj r1.spxSpriteResourceAutoBindings objId }
        ident (derefType (some (.otherNamed objName true))) none
      refine ⟨fun hv => by simp at hv, fun _ => ?_, fun uri => ?_⟩
      · rw [hd.1.2.2.2]
        exact mem_insertObj _ _
      · rw [hd.2.2 uri]
        exact hwc uri

/-- C6: for a variable defined in `main.spx` at the main file's
outermost scope that qualifies as a sound or sprite auto-binding
candidate: when it is not declared in the first `var` block, the
*"resources must be defined in the first var block for auto-binding"*
warning is stored for the document and neither auto-binding set gains
the object; when it is declared there, the object joins the matching
auto-binding set and no diagnostic with the warning message is added
anywhere. -/
theorem inspectDefsEntry_autoBinding (r : CompileResult) (d : SpxVarDefM)
    (varType : SpxType)
    (hInv : seenInv r)
    (hpos : d.posValid = true)
    (hkind : d.objKind = .varK) (htype : d.objType = some varType)
    (hfile : d.ident.info.file = r.mainSpxFile) (hscope : d.inMainScope = true)
    (hcand : (varType = .sound ∧ (r.spxResourceSet.Sound d.objName).isSome = true)
      ∨ (varType = .sprite ∧ (r.spxResourceSet.Sprite d.objName).isSome = true)
      ∨ (∃ tn, varType = .otherNamed tn true ∧ d.objName = tn)) :
    (d.inFirstVarBlock = false →
      ((⟨SeverityWarning, d.ident.info.range, warnMsg⟩ : Diagnostic)
          ∈ diagsAt (inspectDefsEntryForSpxResourceRefs r d) (toDocumentURI d.ident.info.file)
        ∧ (inspectDefsEntryForSpxResourceRefs r d).spxSoundResourceAutoBindings
            = r.spxSoundResourceAutoBindings
        ∧ (inspectDefsEntryForSpxResourceRefs r d).spxSpriteResourceAutoBindings
            = r.spxSpriteResourceAutoBindings))
    ∧ (d.inFirstVarBlock = true →
      ((varType = .sound →
          d.objId ∈ (inspectDefsEntryForSpxResourceRefs r d).spxSoundResourceAutoBindings)
        ∧ (varType ≠ .sound →
          d.objId ∈ (inspectDefsEntryForSpxResourceRefs r d).spxSpriteResourceAutoBindings)
        ∧ ∀ uri, warnCount (inspectDefsEntryForSpxResourceRefs r d) uri
            = warnCount r uri)) := by
  have hstep1 : inspectorStep r (match d.objKind, d.initExpr with
      | .constK, some e => inspectSpxResourceRefForTypeAtExpr r e (derefType d.objType) none
      | .varK, some e => inspectSpxResourceRefForTypeAtExpr r e (derefType d.objType) none
      | _, _ => r) := by
    cases hk : d.objKind <;> cases hi : d.initExpr <;>
      simp only [] <;>
      first
        | exact inspectorStep_refl r
        | exact inspectorStep_inspectSpxResourceRefForTypeAtExpr r _ _ none
  have hunf : inspectDefsEntryForSpxResourceRefs r d
      = inspectDefsEntryAutoBind (match d.objKind, d.initExpr with
        | .constK, some e => inspectSpxResourceRefForTypeAtExpr r e (derefType d.objType) none
        | .varK, some e => inspectSpxResourceRefForTypeAtExpr r e (derefType d.objType) none
        | _, _ => r) d := by
    rw [inspectDefsEntryForSpxResourceRefs, if_neg (by simp [hpos])]
  rw [hunf]
  exact inspectDefsEntryAutoBind_spec r _ d varType hstep1 hInv hkind htype hfile hscope hcand

theorem inspectDefsEntry_autoBinding_witness :
    seenInv ⟨"main.spx", ⟨[], [], ["s"], []⟩, [], [], [], [], [], [], false⟩
    ∧ ((⟨"main.spx", ⟨[], [], ["s"], []⟩, [], [], [], [], [], [], false⟩
        : CompileResult).spxResourceSet.Sound "s").isSome = true
    ∧ (⟨SeverityWarning, zeroRange, warnMsg⟩ : Diagnostic)
        ∈ diagsAt
          (inspectDefsEntryForSpxResourceRefs
            ⟨"main.spx", ⟨[], [], ["s"], []⟩, [], [], [], [], [], [], false⟩
            ⟨.identE ⟨"main.spx", zeroRange, some .sound, none⟩ "s" (some (5, "s")) true,
              true, 5, "s", .varK, some .sound, none, true, false⟩)
          (toDocumentURI "main.spx") := by
  have hInv : seenInv ⟨"main.spx", ⟨[], [], ["s"], []⟩, [], [], [], [], [], [], false⟩ :=
    fun uri x => by simp [lookupOr, List.find?]
  have h := (inspectDefsEntry_autoBinding
    ⟨"main.spx", ⟨[], [], ["s"], []⟩, [], [], [], [], [], [], false⟩
    ⟨.identE ⟨"main.spx", zeroRange, some .sound, none⟩ "s" (some (5, "s")) true,
      true, 5, "s", .varK, some .sound, none, true, false⟩
    .sound hInv rfl rfl rfl rfl rfl
    (Or.inl ⟨rfl, by decide⟩)).1 rfl
  exact ⟨hInv, by decide, h.1⟩

/-! ## C9: `PathEnclosingInterval` -/

theorem visit_shape (s e : Nat) (n : PNode) : ∃ t, (visit s e n).1 = n :: t := by
  cases n with
  | mk p q tok cs =>
    rw [visit]
    split
    all_goals first
      | exact ⟨[], rfl⟩
      | exact ⟨_, rfl⟩
      | (refine ⟨[], ?_⟩
         repeat' split
         all_goals rfl)

theorem pathEnclosingInterval_path_root (root : PNode) (hasPkg : Bool) (s e : Nat) :
    (PathEnclosingInterval root hasPkg s e).1 ≠ []
    ∧ (PathEnclosingInterval root hasPkg s e).1.getLast? = some root := by
  have key : ∀ (a b : Nat), (visit a b root).1.reverse ≠ []
      ∧ (visit a b root).1.reverse.getLast? = some root := by
    intro a b
    obtain ⟨t, ht⟩ := visit_shape a b root
    rw [ht, List.reverse_cons]
    exact ⟨by simp, List.getLast?_concat _⟩
  rw [PathEnclosingInterval]
  repeat' split
  all_goals first
    | exact key _ _
    | exact ⟨by simp, by simp⟩

theorem findChild_whole (p q : Nat) (cs : List PNode) (_hpq : p < q)
    (hch : ∀ c ∈ cs, p ≤ c.pos ∧ c.pos < c.pend ∧ c.pend ≤ q)
    (hsole : ∀ c, cs = [c] → c.isTok = false → ¬(c.pos = p ∧ c.pend = q)) :
    findChild p q none cs = .fallThru ∨ findChild p q none cs = .token := by
  match cs with
  | [] => left; rw [findChild]
  | [c] =>
    simp only [findChild]
    by_cases hcont : c.pos ≤ p ∧ q ≤ c.pend
    · rw [if_pos hcont]
      obtain ⟨h1, h2, h3⟩ := hch c (List.mem_cons_self c [])
      have hpeq : c.pos = p := Nat.le_antisymm hcont.1 h1
      have hqeq : c.pend = q := Nat.le_antisymm h3 hcont.2
      cases htok : c.isTok
      · exact absurd ⟨hpeq, hqeq⟩ (hsole c rfl htok)
      · right; simp [htok]
    · rw [if_neg hcont]
      left; rfl
  | c :: next :: rest =>
    simp only [findChild]
    obtain ⟨h1, h2, h3⟩ := hch c (List.mem_cons_self c _)
    obtain ⟨h4, h5, h6⟩ := hch next (List.mem_cons_of_mem c (List.mem_cons_self next rest))
    rw [if_neg (by omega : ¬(c.pend ≤ p ∧ q ≤ next.pos))]
    rw [if_neg (by omega : ¬(c.pos ≤ p ∧ q ≤ next.pos))]
    rw [if_pos (by omega : p < c.pend ∧ next.pos < q)]
    left; rfl

theorem visit_whole (p q : Nat) (tok : Bool) (cs : List PNode) (hpq : p < q)
    (hch : ∀ c ∈ cs, p ≤ c.pos ∧ c.pos < c.pend ∧ c.pend ≤ q)
    (hsole : ∀ c, cs = [c] → c.isTok = false → ¬(c.pos = p ∧ c.pend = q)) :
    visit p q (.mk p q tok cs) = ([.mk p q tok cs], true) := by
  rw [visit]
  simp only [if_neg (lt_irrefl p), if_neg (lt_irrefl q)]
  rcases findChild_whole p q cs hpq hch hsole with h | h
  · rw [h]
    simp
  · rw [h]

/-- C9 (amended): for a file root whose children all lie inside its
interval, are non-degenerate, and — when the root has exactly one
non-token child — do not span the root's entire interval,
`PathEnclosingInterval` on the whole-file interval
`[root.Pos(), root.End())` returns the path `[root]` with `exact =
true`; and for every root and every interval the returned path is
non-empty and ends with the root file node. -/
theorem PathEnclosingInterval_whole_file (root : PNode) (hasPkg : Bool)
    (hpos : root.pos < root.pend)
    (hch : ∀ c ∈ root.children, root.pos ≤ c.pos ∧ c.pos < c.pend ∧ c.pend ≤ root.pend)
    (hsole : ∀ c, root.children = [c] → c.isTok = false →
        ¬(c.pos = root.pos ∧ c.pend = root.pend)) :
    PathEnclosingInterval root hasPkg root.pos root.pend = ([root], true)
    ∧ ∀ s e, (PathEnclosingInterval root hasPkg s e).1 ≠ []
        ∧ (PathEnclosingInterval root hasPkg s e).1.getLast? = some root := by
  refine ⟨?_, fun s e => pathEnclosingInterval_path_root root hasPkg s e⟩
  cases root with
  | mk p q tok cs =>
    have hpq : p < q := hpos
    rw [PathEnclosingInterval]
    simp only [PNode.pos, PNode.pend]
    simp only [if_neg (show ¬ q < p from by omega)]
    rw [if_pos (show p < q ∧ (p < q ∨ ¬hasPkg = true ∧ q = p) from ⟨hpq, Or.inl hpq⟩)]
    rw [if_neg (show ¬ p = q from by omega)]
    rw [visit_whole p q tok cs hpq hch hsole]
    rfl

/-- C9 counterexample: a file root `[0, 10)` with a single non-token
child spanning the same interval `[0, 10)`: the whole-file query
descends into the child, so the returned path has length 2, not 1 as
the claim states. -/
theorem PathEnclosingInterval_counterexample :
    (PathEnclosingInterval (.mk 0 10 false [.mk 0 10 false []]) true 0 10).1
      = [.mk 0 10 false [], .mk 0 10 false [.mk 0 10 false []]]
    ∧ (PathEnclosingInterval (.mk 0 10 false [.mk 0 10 false []]) true 0 10).1.length = 2
    ∧ (PNode.mk 0 10 false [.mk 0 10 false []]).pos = 0
    ∧ (PNode.mk 0 10 false [.mk 0 10 false []]).pend = 10 := by
  have hv : PathEnclosingInterval (.mk 0 10 false [.mk 0 10 false []]) true 0 10
      = ([.mk 0 10 false [], .mk 0 10 false [.mk 0 10 false []]], true) := by
    rw [PathEnclosingInterval]
    norm_num
    rw [visit]
    norm_num [findChild, PNode.pos, PNode.pend, PNode.isTok]
    rw [visit]
    norm_num [findChild]
  rw [hv]
  exact ⟨rfl, rfl, rfl, rfl⟩

theorem PathEnclosingInterval_whole_file_witness :
    (PNode.mk 0 10 false []).pos < (PNode.mk 0 10 false []).pend
    ∧ PathEnclosingInterval (.mk 0 10 false []) true
        (PNode.mk 0 10 false []).pos (PNode.mk 0 10 false []).pend
      = ([.mk 0 10 false []], true) := by
  refine ⟨by decide, ?_⟩
  exact (PathEnclosingInterval_whole_file (.mk 0 10 false []) true (by decide)
    (by intro c hc; simp [PNode.children] at hc)
    (by intro c hc; simp [PNode.children] at hc)).1

end GoxLSW
